import Mathlib

/-!
Verification of the grib-getter repository (NOAA GFS GRIB fetcher).

Shallow embedding conventions, used throughout:

* Python strings are modelled as `List Char`.
* Python `float` values are modelled as `ℚ` (the geographic arithmetic of the
  repository is exact on the inputs of interest; `str(float)` rendering is kept
  abstract as a `render : ℚ → List Char` parameter where URLs need it).
* `datetime` values (always UTC in this program) are modelled as minutes since
  an arbitrary epoch, as `Int`.  Python's `//` and `%` on these quantities are
  floor operations with positive divisors, which coincide with `Int.ediv` /
  `Int.emod`.  `strftime("%Y%m%d")` is modelled as the day index
  (`t.ediv 1440`) and the two-digit hour string as the hour number: both
  renderings are injective on the values that occur.
* Side effects of the fetch engine (`time.sleep`, HTTP requests, `mkdir`,
  `write_bytes`) are recorded in an explicit `Effect` trace; the outcomes of
  HTTP attempts, wall-clock reads and `random.random()` draws are supplied by
  an environment parameter.
-/

/-! ## Character and digit utilities (Python `int(s, base)`, `hex`, `format`) -/

/-- Value of a character as a digit, as Python's `int(s, base)` reads it
(digits `0`-`9`, letters `a`-`f` / `A`-`F`; other separators Python tolerates,
such as underscores, never occur in the strings this program parses). -/
def charVal (c : Char) : Option Nat :=
  if '0' ≤ c ∧ c ≤ '9' then some (c.toNat - 48)
  else if 'a' ≤ c ∧ c ≤ 'f' then some (c.toNat - 87)
  else if 'A' ≤ c ∧ c ≤ 'F' then some (c.toNat - 55)
  else none

/-- Lowercase digit character for a value below 16, as Python's `hex` and
`format(_, "b")` render digits. -/
def hexChar (d : Nat) : Char :=
  if d < 10 then Char.ofNat (48 + d) else Char.ofNat (87 + d)

/-- Accumulating parse of a digit string in base `b`; `none` models the
`ValueError` Python raises on an invalid digit. -/
def parseDigitsAux (b : Nat) (acc : Nat) : List Char → Option Nat
  | [] => some acc
  | c :: cs =>
    match charVal c with
    | some d => if d < b then parseDigitsAux b (b * acc + d) cs else none
    | none => none

/-- Python `int(s, b)` on a plain digit string; the empty string raises. -/
def pyInt (b : Nat) (s : List Char) : Option Nat :=
  match s with
  | [] => none
  | _ => parseDigitsAux b 0 s

/-- Python `int(s, 16)`, which also accepts a `0x` prefix (the form `hex`
produces). -/
def pyInt16 (s : List Char) : Option Nat :=
  match s with
  | '0' :: 'x' :: rest => pyInt 16 rest
  | _ => pyInt 16 s

/-- Fuel-driven little-endian digits of `n` in base `b` (structurally
recursive so that it evaluates by kernel reduction; agrees with `Nat.digits`,
see `digitsFuel_eq_digits`). -/
def digitsFuel (b : Nat) : Nat → Nat → List Nat
  | _, 0 => []
  | n, fuel + 1 => if n = 0 then [] else n % b :: digitsFuel b (n / b) fuel

/-- Python `format(n, "b")`, with the digit characters kept as their numeric
values (`format` renders `0` as `"0"`, not as the empty string). -/
def binRep (n : Nat) : List Nat :=
  if n = 0 then [0] else (digitsFuel 2 n n).reverse

/-- Python `str.rjust(len, "0")` on a digit string: left-pad with zeros, never
truncate. -/
def rjust0 (len : Nat) (l : List Nat) : List Nat :=
  List.replicate (len - l.length) 0 ++ l

/-- Python `hex(n)`: `0x` followed by lowercase hexadecimal digits. -/
def pyHex (n : Nat) : List Char :=
  '0' :: 'x' :: (if n = 0 then ['0'] else (digitsFuel 16 n n).reverse.map hexChar)

/-! ## Masking utilities (src/noaa_query_builder.py) -/

/-- Embeds `get_binary_mask_from_hex`: parse the hexadecimal mask, render it
in binary and left-pad with zeros to `mask_length`.  The binary string is
modelled by its digit values (the subsequent `int(value)` per character in the
source recovers exactly these values). -/
def get_binary_mask_from_hex (hex_mask : List Char) (mask_length : Nat) :
    Option (List Nat) :=
  (pyInt16 hex_mask).map fun n => rjust0 mask_length (binRep n)

/-- Embeds `build_new_mask`: one `"1"`/`"0"` character per key, joined and
parsed as a binary integer (raising on an empty key list), then rendered by
`hex`. -/
def build_new_mask (all_values : List (List Char))
    (selected_values : List (List Char)) : Option (List Char) :=
  (pyInt 2 (all_values.map fun key =>
    if key ∈ selected_values then '1' else '0')).map pyHex

/-- Embeds `reveal_masked_values`: keep the keys whose mask bit is set. -/
def reveal_masked_values (all_values : List (List Char))
    (hex_mask : List Char) : Option (List (List Char)) :=
  (get_binary_mask_from_hex hex_mask all_values.length).map fun mask =>
    ((all_values.zip mask).filter fun p => p.2 != 0).map Prod.fst

/-! ## Geographic utilities (src/noaa_query_builder.py) -/

/-- Embeds `clamp_latitude`. -/
def clamp_latitude (latitude : ℚ) : ℚ :=
  max (-90) (min 90 latitude)

/-- Python's `%` on rationals (floor-style remainder, the semantics of
`float.__mod__` on the exact values at hand). -/
def pymod (x m : ℚ) : ℚ :=
  x - m * (⌊x / m⌋ : ℤ)

/-- Embeds `normalize_longitude` (the `+ 360` branch is Python's dead code for
a negative remainder, kept as in the source). -/
def normalize_longitude (longitude : ℚ) : ℚ :=
  let normalized := pymod longitude 360
  if 0 ≤ normalized then normalized else normalized + 360

/-- Embeds `calculate_latitude_bounds`: `(min_lat, max_lat)`. -/
def calculate_latitude_bounds (center_lat height_degrees : ℚ) : ℚ × ℚ :=
  let half_height := height_degrees / 2
  (clamp_latitude (center_lat - half_height),
   clamp_latitude (center_lat + half_height))

/-- Embeds `calculate_longitude_bounds`: `(min_lon, max_lon)`. -/
def calculate_longitude_bounds (center_lon width_degrees : ℚ) : ℚ × ℚ :=
  let normalized_longitude := normalize_longitude center_lon
  let half_width := width_degrees / 2
  (normalize_longitude (normalized_longitude - half_width),
   normalize_longitude (normalized_longitude + half_width))

/-- Location given as a center point plus an expanse, as in the source. -/
structure LocationSettings where
  center_lat : ℚ
  center_lon : ℚ
  height_degrees : ℚ
  width_degrees : ℚ

/-- Geographic bounding box; the field order matches the source's declaration
order (which is also the order `model_dump` serialises). -/
structure BoundingBox where
  toplat : ℚ
  leftlon : ℚ
  rightlon : ℚ
  bottomlat : ℚ

/-- Embeds `create_bounding_box`. -/
def create_bounding_box (ls : LocationSettings) : BoundingBox :=
  let lat := calculate_latitude_bounds ls.center_lat ls.height_degrees
  let lon := calculate_longitude_bounds ls.center_lon ls.width_degrees
  { toplat := lat.2, leftlon := lon.1, rightlon := lon.2, bottomlat := lat.1 }

/-! ## Groundwork: the fuel-driven digits agree with `Nat.digits` -/

/-- `digitsFuel` computes `Nat.digits` when given enough fuel. -/
theorem digitsFuel_eq_digits {b : Nat} (hb : 1 < b) :
    ∀ fuel n, n ≤ fuel → digitsFuel b n fuel = Nat.digits b n := by
  intro fuel
  induction fuel with
  | zero =>
    intro n hn
    interval_cases n
    simp [digitsFuel]
  | succ fuel ih =>
    intro n hn
    by_cases h0 : n = 0
    · simp [digitsFuel, h0]
    · have hpos : 0 < n := Nat.pos_of_ne_zero h0
      rw [Nat.digits_def' hb hpos]
      have hdiv : n / b ≤ fuel :=
        Nat.le_of_lt_succ (Nat.lt_of_lt_of_le (Nat.div_lt_self hpos hb) hn)
      simp [digitsFuel, h0, ih (n / b) hdiv]

/-! ## Claim C10: encoding with an empty key list raises -/

/-- C10: `build_new_mask` fails on an empty `all_values` list, whatever the
selection (the joined bit string is empty and `int("", 2)` raises), so the
spec's mask round-trip indeed presupposes a non-empty key list. -/
theorem c10_build_new_mask_empty_raises (selected_values : List (List Char)) :
    build_new_mask [] selected_values = none := rfl

/-! ## Claim C9: geographic bounds -/

/-- The floor-style remainder by 360 lies in `[0, 360)`. -/
theorem pymod_360_nonneg_lt (x : ℚ) : 0 ≤ pymod x 360 ∧ pymod x 360 < 360 := by
  unfold pymod
  constructor
  · have h := Int.floor_le (x / 360)
    have h2 : (⌊x / 360⌋ : ℚ) * 360 ≤ x :=
      (le_div_iff₀ (by norm_num : (0 : ℚ) < 360)).mp h
    linarith
  · have h := Int.lt_floor_add_one (x / 360)
    have h2 : x < ((⌊x / 360⌋ : ℚ) + 1) * 360 :=
      (div_lt_iff₀ (by norm_num : (0 : ℚ) < 360)).mp h
    linarith

/-- `normalize_longitude` always lands in `[0, 360)`. -/
theorem normalize_longitude_mem (x : ℚ) :
    0 ≤ normalize_longitude x ∧ normalize_longitude x < 360 := by
  obtain ⟨h1, h2⟩ := pymod_360_nonneg_lt x
  simp only [normalize_longitude]
  rw [if_pos h1]
  exact ⟨h1, h2⟩

/-- `normalize_longitude` is the identity on `[0, 360)`. -/
theorem normalize_longitude_of_mem {x : ℚ} (h1 : 0 ≤ x) (h2 : x < 360) :
    normalize_longitude x = x := by
  have hfloor : ⌊x / 360⌋ = 0 := by
    rw [Int.floor_eq_zero_iff]
    exact ⟨div_nonneg h1 (by norm_num),
      (div_lt_one (by norm_num : (0 : ℚ) < 360)).mpr h2⟩
  have hm : pymod x 360 = x := by
    unfold pymod
    rw [hfloor]
    push_cast
    ring
  simp [normalize_longitude, hm, h1]

/-- `normalize_longitude 360 = 0` (the antimeridian wrap point). -/
theorem normalize_longitude_360 : normalize_longitude 360 = 0 := by
  have hfloor : ⌊(360 : ℚ) / 360⌋ = 1 := by norm_num
  have hm : pymod 360 360 = 0 := by
    unfold pymod
    rw [hfloor]
    norm_num
  simp [normalize_longitude, hm]

/-- C9: `clamp_latitude` maps into `[-90, 90]` and is the identity there;
`normalize_longitude` maps into `[0, 360)`; `create_bounding_box` clamps a
box centered at latitude 85 with height 20 to `[75, 90]` (pole clamp, no
wrap), and wraps a box centered at longitude 350 with width 20 to
`[340, 0)` (antimeridian wrap). -/
theorem c9_geographic_bounds (x y clon w clat hh : ℚ)
    (hy1 : -90 ≤ y) (hy2 : y ≤ 90) :
    (-90 ≤ clamp_latitude x ∧ clamp_latitude x ≤ 90) ∧
    clamp_latitude y = y ∧
    (0 ≤ normalize_longitude x ∧ normalize_longitude x < 360) ∧
    ((create_bounding_box ⟨85, clon, 20, w⟩).bottomlat = 75 ∧
     (create_bounding_box ⟨85, clon, 20, w⟩).toplat = 90) ∧
    ((create_bounding_box ⟨clat, 350, hh, 20⟩).leftlon = 340 ∧
     (create_bounding_box ⟨clat, 350, hh, 20⟩).rightlon = 0) := by
  refine ⟨⟨le_max_left _ _, max_le (by norm_num) (min_le_left _ _)⟩, ?_, ?_, ?_, ?_⟩
  · unfold clamp_latitude
    rw [min_eq_right hy2, max_eq_right hy1]
  · exact normalize_longitude_mem x
  · constructor
    · show clamp_latitude (85 - 20 / 2) = 75
      unfold clamp_latitude
      norm_num
    · show clamp_latitude (85 + 20 / 2) = 90
      unfold clamp_latitude
      norm_num
  · have hn : normalize_longitude (350 : ℚ) = 350 :=
      normalize_longitude_of_mem (by norm_num) (by norm_num)
    constructor
    · show normalize_longitude (normalize_longitude 350 - 20 / 2) = 340
      rw [hn]
      have h340 : (350 : ℚ) - 20 / 2 = 340 := by norm_num
      rw [h340]
      exact normalize_longitude_of_mem (by norm_num) (by norm_num)
    · show normalize_longitude (normalize_longitude 350 + 20 / 2) = 0
      rw [hn]
      have : (350 : ℚ) + 20 / 2 = 360 := by norm_num
      rw [this]
      exact normalize_longitude_360

/-- Witness for C9 at concrete inputs. -/
theorem c9_geographic_bounds_witness :
    ((-90 ≤ (45 : ℚ)) ∧ ((45 : ℚ) ≤ 90)) ∧
    ((-90 ≤ clamp_latitude 123 ∧ clamp_latitude 123 ≤ 90) ∧
     clamp_latitude 45 = 45 ∧
     (0 ≤ normalize_longitude 123 ∧ normalize_longitude 123 < 360) ∧
     ((create_bounding_box ⟨85, 7, 20, 9⟩).bottomlat = 75 ∧
      (create_bounding_box ⟨85, 7, 20, 9⟩).toplat = 90) ∧
     ((create_bounding_box ⟨11, 350, 13, 20⟩).leftlon = 340 ∧
      (create_bounding_box ⟨11, 350, 13, 20⟩).rightlon = 0)) :=
  ⟨⟨by norm_num, by norm_num⟩,
   c9_geographic_bounds 123 45 7 9 11 13 (by norm_num) (by norm_num)⟩

/-! ## Claim C3: mask round-trip -/

/-- `hexChar` and `charVal` are inverse on digit values below 16. -/
theorem charVal_hexChar (d : Nat) (hd : d < 16) :
    charVal (hexChar d) = some d := by
  interval_cases d <;> decide

/-- A most-significant-digit-first fold is `Nat.ofDigits` of the reversed
digit list. -/
theorem foldl_base (b : Nat) :
    ∀ (ds : List Nat) (acc : Nat),
      ds.foldl (fun a d => b * a + d) acc =
        acc * b ^ ds.length + Nat.ofDigits b ds.reverse := by
  intro ds
  induction ds with
  | nil => intro acc; simp
  | cons d tl ih =>
    intro acc
    simp only [List.foldl_cons, List.reverse_cons, List.length_cons]
    rw [ih (b * acc + d), Nat.ofDigits_append]
    simp only [Nat.ofDigits_cons, Nat.ofDigits_nil, List.length_reverse]
    ring

/-- Parsing the rendered hexadecimal digits accumulates their value. -/
theorem parseDigitsAux_map_hexChar :
    ∀ (ds : List Nat) (acc : Nat), (∀ d ∈ ds, d < 16) →
      parseDigitsAux 16 acc (ds.map hexChar) =
        some (ds.foldl (fun a d => 16 * a + d) acc) := by
  intro ds
  induction ds with
  | nil => intro acc _; rfl
  | cons d tl ih =>
    intro acc h
    have hd : d < 16 := h d (by simp)
    simp only [List.map_cons, List.foldl_cons, parseDigitsAux,
      charVal_hexChar d hd]
    rw [if_pos hd]
    exact ih (16 * acc + d) fun x hx => h x (by simp [hx])

/-- Python's `int(_, 16)` inverts `hex` on every natural number. -/
theorem pyInt16_pyHex (n : Nat) : pyInt16 (pyHex n) = some n := by
  by_cases h0 : n = 0
  · subst h0; rfl
  · show pyInt 16 (if n = 0 then ['0']
      else (digitsFuel 16 n n).reverse.map hexChar) = some n
    rw [if_neg h0, digitsFuel_eq_digits (by norm_num) n n le_rfl]
    have hne : Nat.digits 16 n ≠ [] := Nat.digits_ne_nil_iff_ne_zero.mpr h0
    have hlt : ∀ d ∈ (Nat.digits 16 n).reverse, d < 16 := fun d hd =>
      Nat.digits_lt_base (by norm_num) (List.mem_reverse.mp hd)
    cases hds : (Nat.digits 16 n).reverse with
    | nil => exact absurd (List.reverse_eq_nil_iff.mp hds) hne
    | cons d tl =>
      show pyInt 16 ((d :: tl).map hexChar) = some n
      have : parseDigitsAux 16 0 ((d :: tl).map hexChar) =
          some ((d :: tl).foldl (fun a d => 16 * a + d) 0) :=
        parseDigitsAux_map_hexChar (d :: tl) 0 (hds ▸ hlt)
      rw [show pyInt 16 ((d :: tl).map hexChar) =
        parseDigitsAux 16 0 ((d :: tl).map hexChar) from rfl, this]
      rw [foldl_base 16 (d :: tl) 0]
      rw [← hds, List.reverse_reverse, Nat.ofDigits_digits]
      simp

/-- `binRep` in terms of `Nat.digits`. -/
theorem binRep_eq (n : Nat) :
    binRep n = if n = 0 then [0] else (Nat.digits 2 n).reverse := by
  unfold binRep
  rw [digitsFuel_eq_digits (by norm_num) n n le_rfl]

/-- Length bound for binary digit lists. -/
theorem digits_two_length_le {n L : Nat} (h : n < 2 ^ L) :
    (Nat.digits 2 n).length ≤ L := by
  by_cases h0 : n = 0
  · simp [h0]
  · have h1 := Nat.base_pow_length_digits_le 2 n (by norm_num) h0
    have h2 : (2 : Nat) ^ (Nat.digits 2 n).length < 2 ^ (L + 1) := by
      calc (2 : Nat) ^ (Nat.digits 2 n).length ≤ 2 * n := h1
        _ < 2 * 2 ^ L := by omega
        _ = 2 ^ (L + 1) := by ring
    exact Nat.lt_succ_iff.mp ((Nat.pow_lt_pow_iff_right (by norm_num)).mp h2)

/-- Padding step for `rjust0`. -/
theorem rjust0_succ (L : Nat) (l : List Nat) (h : l.length ≤ L) :
    rjust0 (L + 1) l = 0 :: rjust0 L l := by
  unfold rjust0
  rw [show L + 1 - l.length = (L - l.length) + 1 by omega,
    List.replicate_succ, List.cons_append]

/-- Rendering a bit string's value in binary and left-padding back to its
length recovers the bit string. -/
theorem binRep_rjust :
    ∀ (bs : List Nat), (∀ x ∈ bs, x < 2) → bs ≠ [] →
      rjust0 bs.length (binRep (Nat.ofDigits 2 bs.reverse)) = bs := by
  intro bs
  induction bs with
  | nil => intro _ h; exact absurd rfl h
  | cons b tl ih =>
    intro h _
    have hb : b < 2 := h b (by simp)
    have htl : ∀ x ∈ tl, x < 2 := fun x hx => h x (by simp [hx])
    have hrev : (b :: tl).reverse = tl.reverse ++ [b] := by simp
    have hofd : Nat.ofDigits 2 ((b :: tl).reverse) =
        Nat.ofDigits 2 tl.reverse + 2 ^ tl.length * b := by
      rw [hrev, Nat.ofDigits_append]
      simp [Nat.ofDigits_cons, Nat.ofDigits_nil]
    rcases (by omega : b = 0 ∨ b = 1) with hb0 | hb1
    · subst hb0
      rw [hofd]
      simp only [Nat.mul_zero, Nat.add_zero]
      cases htlnil : tl with
      | nil =>
        show rjust0 1 (binRep (Nat.ofDigits 2 [].reverse)) = [0]
        simp [binRep_eq, rjust0, Nat.ofDigits_nil]
      | cons t ttl =>
        have htlne : tl ≠ [] := by simp [htlnil]
        rw [← htlnil]
        have hlen : (binRep (Nat.ofDigits 2 tl.reverse)).length ≤ tl.length := by
          rw [binRep_eq]
          by_cases hz : Nat.ofDigits 2 tl.reverse = 0
          · rw [if_pos hz]
            have : 1 ≤ tl.length := by
              cases tl with
              | nil => exact absurd rfl htlne
              | cons _ _ => simp
            simpa using this
          · rw [if_neg hz]
            have hlt : Nat.ofDigits 2 tl.reverse < 2 ^ tl.length := by
              have := Nat.ofDigits_lt_base_pow_length (b := 2)
                (l := tl.reverse) (by norm_num)
                (fun x hx => htl x (List.mem_reverse.mp hx))
              simpa using this
            simpa using digits_two_length_le hlt
        show rjust0 (tl.length + 1) (binRep (Nat.ofDigits 2 tl.reverse)) = 0 :: tl
        rw [rjust0_succ _ _ hlen, ih htl htlne]
    · subst hb1
      have hlt : ∀ x ∈ tl.reverse ++ [1], x < 2 := by
        intro x hx
        rcases List.mem_append.mp hx with hx | hx
        · exact htl x (List.mem_reverse.mp hx)
        · simp at hx; omega
      have hlast : ∀ (hne : tl.reverse ++ [1] ≠ []),
          (tl.reverse ++ [1]).getLast hne ≠ 0 := by
        intro hne
        rw [List.getLast_concat]
        norm_num
      have hdig : Nat.digits 2 (Nat.ofDigits 2 (tl.reverse ++ [1])) =
          tl.reverse ++ [1] :=
        Nat.digits_ofDigits 2 (by norm_num) _ hlt hlast
      have hnz : Nat.ofDigits 2 (tl.reverse ++ [1]) ≠ 0 := by
        intro hz
        have : Nat.digits 2 0 = tl.reverse ++ [1] := by rw [← hz]; exact hdig
        simp at this
      rw [hrev] at hofd ⊢
      rw [binRep_eq, if_neg hnz, hdig]
      have hrev2 : (tl.reverse ++ [1]).reverse = 1 :: tl := by simp
      rw [hrev2]
      simp [rjust0]

/-- Parsing the joined `"1"`/`"0"` characters of `build_new_mask` accumulates
the corresponding bit value. -/
theorem parse01 (sel : List (List Char)) :
    ∀ (keys : List (List Char)) (acc : Nat),
      parseDigitsAux 2 acc (keys.map fun k => if k ∈ sel then '1' else '0') =
        some (keys.foldl
          (fun a k => 2 * a + (if k ∈ sel then 1 else 0)) acc) := by
  intro keys
  induction keys with
  | nil => intro acc; rfl
  | cons k tl ih =>
    intro acc
    by_cases hk : k ∈ sel
    · simp only [List.map_cons, List.foldl_cons, if_pos hk, parseDigitsAux]
      show parseDigitsAux 2 (2 * acc + 1) _ = _
      exact ih _
    · simp only [List.map_cons, List.foldl_cons, if_neg hk, parseDigitsAux]
      show parseDigitsAux 2 (2 * acc + 0) _ = _
      exact ih _

/-- Filtering a duplicate-free list by membership in one of its sublists
recovers that sublist. -/
theorem filter_mem_of_sublist {α : Type _} [DecidableEq α] :
    ∀ {s l : List α}, List.Sublist s l → l.Nodup →
      l.filter (fun x => decide (x ∈ s)) = s := by
  intro s l h
  induction h with
  | slnil => intro _; rfl
  | @cons s l a h ih =>
    intro hnd
    obtain ⟨hal, hnd2⟩ := List.nodup_cons.mp hnd
    have ha : a ∉ s := fun hmem => hal (h.subset hmem)
    simp only [List.filter_cons]
    rw [if_neg (by simp [ha])]
    exact ih hnd2
  | @cons₂ s l a h ih =>
    intro hnd
    obtain ⟨hal, hnd2⟩ := List.nodup_cons.mp hnd
    simp only [List.filter_cons]
    rw [if_pos (by simp)]
    have hcg : l.filter (fun x => decide (x ∈ a :: s)) =
        l.filter (fun x => decide (x ∈ s)) := by
      refine List.filter_congr fun x hx => ?_
      have hxa : x ≠ a := fun he => hal (he ▸ hx)
      simp [List.mem_cons, hxa]
    rw [hcg, ih hnd2]

/-- C3: for a non-empty, duplicate-free key list and any subset of it (as a
sublist, i.e. ordered as in the key list), encoding with `build_new_mask` and
decoding with `reveal_masked_values` returns exactly that subset. -/
theorem c3_mask_roundtrip (keys sel : List (List Char))
    (h1 : keys ≠ []) (h2 : keys.Nodup) (h3 : List.Sublist sel keys) :
    ∃ m, build_new_mask keys sel = some m ∧
      reveal_masked_values keys m = some sel := by
  set bits : List Nat := keys.map (fun k => if k ∈ sel then 1 else 0)
    with hbits
  set n : Nat := Nat.ofDigits 2 bits.reverse with hn
  have hfold : keys.foldl
      (fun a k => 2 * a + (if k ∈ sel then 1 else 0)) 0 = n := by
    rw [← List.foldl_map (fun k => if k ∈ sel then (1 : Nat) else 0)
      (fun a d => 2 * a + d) keys 0, ← hbits, foldl_base 2 bits 0, hn]
    simp
  have hbuild : build_new_mask keys sel = some (pyHex n) := by
    unfold build_new_mask
    cases hks : keys with
    | nil => exact absurd hks h1
    | cons k0 ktl =>
      rw [← hks]
      have : pyInt 2 (keys.map fun k => if k ∈ sel then '1' else '0') =
          some n := by
        rw [hks]
        show parseDigitsAux 2 0 _ = some n
        rw [parse01 sel (k0 :: ktl) 0, ← hks, hfold]
      rw [this]
      rfl
  refine ⟨pyHex n, hbuild, ?_⟩
  -- the decode side
  have hbits2 : ∀ x ∈ bits, x < 2 := by
    intro x hx
    rw [hbits] at hx
    obtain ⟨k, _, hk⟩ := List.mem_map.mp hx
    by_cases hksel : k ∈ sel <;> simp [hksel] at hk <;> omega
  have hbne : bits ≠ [] := by
    rw [hbits]
    intro hmapnil
    exact h1 (List.map_eq_nil_iff.mp hmapnil)
  have hmask : get_binary_mask_from_hex (pyHex n) keys.length =
      some bits := by
    unfold get_binary_mask_from_hex
    rw [pyInt16_pyHex]
    have hlen : keys.length = bits.length := by simp [hbits]
    rw [Option.map_some', hlen, binRep_rjust bits hbits2 hbne]
  unfold reveal_masked_values
  rw [hmask, Option.map_some']
  congr 1
  -- compute the zip/filter/map pipeline
  have hzip : keys.zip bits =
      keys.map (fun k => (k, if k ∈ sel then (1 : Nat) else 0)) := by
    conv_lhs => rw [show keys = keys.map id from (List.map_id keys).symm]
    rw [hbits, List.zip_map']
    simp
  rw [hzip, List.filter_map, List.map_map]
  have hfc : (keys.filter
      ((fun p : List Char × Nat => p.2 != 0) ∘
        (fun k => (k, if k ∈ sel then (1 : Nat) else 0)))) = sel := by
    refine (List.filter_congr fun x _ => ?_).trans (filter_mem_of_sublist h3 h2)
    by_cases hx : x ∈ sel <;> simp [hx]
  rw [hfc]
  show List.map (Prod.fst ∘ fun k => (k, if k ∈ sel then (1 : Nat) else 0))
    sel = sel
  rw [show (Prod.fst ∘ fun k : List Char =>
    (k, if k ∈ sel then (1 : Nat) else 0)) = id from rfl, List.map_id]

/-- Witness for C3 at a concrete key list and subset. -/
theorem c3_mask_roundtrip_witness :
    ((["ab".toList, "cd".toList] : List (List Char)) ≠ [] ∧
     (["ab".toList, "cd".toList] : List (List Char)).Nodup ∧
     List.Sublist (["cd".toList] : List (List Char)) ["ab".toList, "cd".toList]) ∧
    (∃ m, build_new_mask ["ab".toList, "cd".toList] ["cd".toList] = some m ∧
      reveal_masked_values ["ab".toList, "cd".toList] m =
        some ["cd".toList]) :=
  ⟨⟨by decide, by decide, List.Sublist.cons _ (List.Sublist.refl _)⟩,
   c3_mask_roundtrip _ _ (by decide) (by decide)
     (List.Sublist.cons _ (List.Sublist.refl _))⟩

/-! ## Query data model (src/noaa_query_builder.py)

`ModelData` and `QueryMask` of the source are plain containers consumed by the
excluded CLI layer; the structures below are the ones the verified functions
read. -/

/-- Forecast run timestamp: the `YYYYMMDD` date string is modelled as the day
index and the two-digit `HH` cycle hour string as the hour number (both
renderings are injective on the occurring values). -/
structure QueryTime where
  date_utc : Int
  cycle_hour_utc : Int
deriving DecidableEq

/-- Product-specific query configuration.  The `dir` and `file` fields of the
source are `str.format` templates over the query time's fields; they are
modelled as the substitution functions those templates denote. -/
structure QueryModel where
  name : List Char
  filter : List Char
  file : QueryTime → List Char
  dir : QueryTime → List Char

/-- Selected keys plus mask and URL prefix.  The source's third field is named
`prefix`, a reserved word in Lean, hence `pfx`. -/
structure SelectedKeys where
  all_keys : List (List Char)
  hex_mask : List Char
  pfx : List Char

/-- Core settings.  `grib_url` is a `str.format` template over `filter`,
modelled as the substitution function it denotes; `output_dir` is consumed by
the excluded CLI layer only and is omitted. -/
structure CoreSettings where
  grib_url : List Char → List Char
  forecast_interval_hours : Int
  max_lookback_hours : Int

/-- Complete query configuration.  The source's first `SelectedKeys` field is
named `variables`, a reserved token in Lean, hence `variables_keys`. -/
structure QueryStructure where
  bounding_box : BoundingBox
  query_model : QueryModel
  variables_keys : SelectedKeys
  levels : SelectedKeys
  current_time : Int
  settings : CoreSettings

/-! ## Time utilities (src/noaa_query_builder.py)

Datetimes are minutes since an epoch (`Int`); `Int`'s `/` and `%` are
Euclidean, which for the positive divisors below coincide with Python's floor
division and modulo.  Sub-minute fields never influence any embedded value
(every path first truncates to the hour), so minute granularity is faithful. -/

/-- Embeds `format_date_utc`: the `YYYYMMDD` rendering, as the day index. -/
def format_date_utc (t : Int) : Int := t / 1440

/-- The `.hour` attribute of a datetime. -/
def hourOf (t : Int) : Int := t % 1440 / 60

/-- Embeds `crop_to_hour`: zero out everything below the hour. -/
def crop_to_hour (t : Int) : Int := t - t % 60

/-- Python's `datetime.replace(hour=h)`: keep the date and the sub-hour part,
set the hour. -/
def replace_hour (t h : Int) : Int := t - t % 1440 + h * 60 + t % 60

/-- Embeds `get_latest_of_multiple`: round the hour down to the nearest
multiple of the forecast interval. -/
def get_latest_of_multiple (hour : Int) (qs : QueryStructure) : Int :=
  hour / qs.settings.forecast_interval_hours *
    qs.settings.forecast_interval_hours

/-- Embeds `get_latest_run_start`. -/
def get_latest_run_start (t : Int) (qs : QueryStructure) : Int :=
  replace_hour (crop_to_hour t) (get_latest_of_multiple (hourOf t) qs)

/-- Embeds `build_qt`. -/
def build_qt (t : Int) (qs : QueryStructure) : QueryTime :=
  { date_utc := format_date_utc t,
    cycle_hour_utc := hourOf (get_latest_run_start t qs) }

/-- Number of elements of Python's `range(0, stop, step)` for positive
`step`. -/
def pyRangeLen (stop step : Int) : Nat :=
  if stop ≤ 0 then 0 else ((stop - 1) / step).toNat + 1

/-- Python's `range(0, stop, step)` for positive `step`, as a list. -/
def pyRange0 (stop step : Int) : List Int :=
  List.map (fun k : Nat => (k : Int) * step) (List.range (pyRangeLen stop step))

/-- Embeds `generate_qt_batch`.  `now` models the `datetime.now(tz=utc)` read
inside the function; the 3-hour recency threshold and the 6-hour step back to
the previous cycle are hardcoded in the source exactly as here. -/
def generate_qt_batch (reference_time : Int) (qs : QueryStructure)
    (now : Int) : List QueryTime :=
  let cropped_time := crop_to_hour reference_time
  let latest_run_start := get_latest_run_start cropped_time qs
  let latest_cycle :=
    if latest_run_start + 3 * 60 ≤ now then
      replace_hour cropped_time (hourOf latest_run_start)
    else
      replace_hour cropped_time (hourOf (latest_run_start - 6 * 60))
  (pyRange0 (qs.settings.max_lookback_hours + 1)
    qs.settings.forecast_interval_hours).map
    fun offset => build_qt (latest_cycle - offset * 60) qs

/-- The timestamp (in minutes) a `QueryTime` denotes. -/
def qtMinutes (q : QueryTime) : Int :=
  q.date_utc * 1440 + q.cycle_hour_utc * 60

/-- A `QueryStructure` with the given forecast interval and lookback and inert
remaining fields, for concrete evaluations. -/
def mkQS (i L : Int) : QueryStructure :=
  { bounding_box := ⟨0, 0, 0, 0⟩,
    query_model := ⟨[], [], fun _ => [], fun _ => []⟩,
    variables_keys := ⟨[], [], []⟩,
    levels := ⟨[], [], []⟩,
    current_time := 0,
    settings := ⟨fun f => f, i, L⟩ }

/-! ## Claim C1: the "previous cycle" step of `generate_qt_batch` -/

/-- C1 (evidence of the code's behaviour at the failing input): interval 6h,
lookback 6h, reference time = wall-clock time = minute 1470 (day 1, 00:30
UTC).  The latest cycle start (day 1, 00:00) is less than 3 hours old, so the
skip branch runs; the source's `replace(hour=(latest_run_start -
timedelta(hours=6)).hour)` keeps the date, so the first returned cycle is
(day 1, 18Z) — a cycle in the future — not the previous cycle (day 0, 18Z)
that the spec describes. -/
theorem c1_previous_cycle_no_rollover :
    (generate_qt_batch 1470 (mkQS 6 6) 1470).head? =
      some { date_utc := 1, cycle_hour_utc := 18 } ∧
    ({ date_utc := 1, cycle_hour_utc := 18 } : QueryTime) ≠
      { date_utc := 0, cycle_hour_utc := 18 } := by decide

/-! ## Claim C4: length and spacing of the cycle batch -/

/-- Subtracting a multiple of the modulus does not change the remainder. -/
theorem emod_sub_mul_self (a b c : Int) : (a - b * c) % c = a % c := by
  have h : a - b * c = a + c * (-b) := by ring
  rw [h, Int.add_mul_emod_self_left]

/-- `crop_to_hour` lands on a whole minute-of-hour boundary. -/
theorem crop_to_hour_emod60 (t : Int) : crop_to_hour t % 60 = 0 := by
  unfold crop_to_hour
  omega

/-- `replace_hour` keeps the sub-hour part. -/
theorem replace_hour_emod60 (t h : Int) :
    replace_hour t h % 60 = t % 60 := by
  unfold replace_hour
  omega

/-- Reduction of the day-remainder of a whole number of hours. -/
theorem emod_1440_of_60mul (u : Int) : (60 * u) % 1440 = 60 * (u % 24) := by
  have hdiv : (60 * u) / 1440 = u / 24 := by
    rw [show (1440 : Int) = 60 * 24 from rfl]
    exact Int.mul_ediv_mul_of_pos u 24 (by norm_num)
  rw [Int.emod_def, Int.emod_def, hdiv]
  ring

/-- The `.hour` of a whole number of hours. -/
theorem hourOf_60mul (u : Int) : hourOf (60 * u) = u % 24 := by
  unfold hourOf
  rw [emod_1440_of_60mul, Int.mul_ediv_cancel_left _ (by norm_num : (60 : Int) ≠ 0)]

/-- The day index of a whole number of hours. -/
theorem format_date_60mul (u : Int) : format_date_utc (60 * u) = u / 24 := by
  unfold format_date_utc
  rw [show (1440 : Int) = 60 * 24 from rfl]
  exact Int.mul_ediv_mul_of_pos u 24 (by norm_num)

/-- The timestamp denoted by `build_qt t` is `t` floored to the enclosing
cycle, provided `t` is on an hour boundary and the forecast interval divides
24. -/
theorem qtMinutes_build_qt (qs : QueryStructure) (t : Int)
    (ht : t % 60 = 0) (hi : 0 < qs.settings.forecast_interval_hours)
    (hd : qs.settings.forecast_interval_hours ∣ 24) :
    qtMinutes (build_qt t qs) =
      t - t % (60 * qs.settings.forecast_interval_hours) := by
  set i := qs.settings.forecast_interval_hours with hidef
  obtain ⟨u, hu⟩ : ∃ u, t = 60 * u := ⟨t / 60, by omega⟩
  subst hu
  have hcrop : crop_to_hour (60 * u) = 60 * u := by unfold crop_to_hour; omega
  set hstar : Int := u % 24 / i * i with hsdef
  have hum24_nonneg : 0 ≤ u % 24 := Int.emod_nonneg u (by norm_num)
  have hstar_nonneg : 0 ≤ hstar :=
    mul_nonneg (Int.ediv_nonneg hum24_nonneg (le_of_lt hi)) (le_of_lt hi)
  have hstar_eq : hstar = u % 24 - u % 24 % i := by
    have h := Int.ediv_add_emod (u % 24) i
    rw [hsdef, mul_comm]
    linarith [h]
  have hstar_le : hstar ≤ u % 24 := by
    have := Int.emod_nonneg (u % 24) (ne_of_gt hi)
    omega
  have h24 : u % 24 < 24 := Int.emod_lt_of_pos u (by norm_num)
  have hstar_lt : hstar < 24 := lt_of_le_of_lt hstar_le h24
  have hglrs : get_latest_run_start (60 * u) qs = 60 * (u - u % 24 + hstar) := by
    unfold get_latest_run_start get_latest_of_multiple
    rw [hcrop, hourOf_60mul, ← hidef, ← hsdef]
    unfold replace_hour
    rw [emod_1440_of_60mul]
    have h60 : (60 * u) % 60 = 0 := by omega
    rw [h60]
    ring
  have hhour2 : hourOf (get_latest_run_start (60 * u) qs) = hstar := by
    rw [hglrs, hourOf_60mul]
    have h1 : u - u % 24 = 24 * (u / 24) := by omega
    rw [h1, add_comm, Int.add_mul_emod_self_left]
    exact Int.emod_eq_of_lt hstar_nonneg hstar_lt
  have hmod : (60 * u) % (60 * i) = 60 * (u % i) := by
    have hdiv : (60 * u) / (60 * i) = u / i := Int.mul_ediv_mul_of_pos u i (by norm_num)
    rw [Int.emod_def, Int.emod_def, hdiv]
    ring
  show format_date_utc (60 * u) * 1440 +
    hourOf (get_latest_run_start (60 * u) qs) * 60 =
      60 * u - (60 * u) % (60 * i)
  rw [format_date_60mul, hhour2, hmod, hstar_eq,
    Int.emod_emod_of_dvd u hd]
  have h1 : 24 * (u / 24) = u - u % 24 := by omega
  linarith [h1]

/-- C4 (amended): with a positive forecast interval that divides 24 and a
non-negative lookback, `generate_qt_batch` returns exactly
`floor(max_lookback_hours / forecast_interval_hours) + 1` query times, whose
denoted timestamps are strictly descending with consecutive entries exactly
`forecast_interval_hours` (i.e. `60 * interval` minutes) apart. -/
theorem c4_batch_length_spacing (reference_time now : Int)
    (qs : QueryStructure)
    (hi : 0 < qs.settings.forecast_interval_hours)
    (hd : qs.settings.forecast_interval_hours ∣ 24)
    (hl : 0 ≤ qs.settings.max_lookback_hours) :
    (generate_qt_batch reference_time qs now).length =
      (qs.settings.max_lookback_hours /
        qs.settings.forecast_interval_hours).toNat + 1 ∧
    List.Chain' (fun a b => qtMinutes b < qtMinutes a ∧
      qtMinutes a - qtMinutes b = 60 * qs.settings.forecast_interval_hours)
      (generate_qt_batch reference_time qs now) := by
  set i := qs.settings.forecast_interval_hours with hidef
  set L := qs.settings.max_lookback_hours with hldef
  obtain ⟨lc, hlc_eq, hlc60⟩ : ∃ lc,
      generate_qt_batch reference_time qs now =
        (pyRange0 (L + 1) i).map (fun offset => build_qt (lc - offset * 60) qs) ∧
      lc % 60 = 0 := by
    refine ⟨if get_latest_run_start (crop_to_hour reference_time) qs + 3 * 60 ≤ now
        then replace_hour (crop_to_hour reference_time)
          (hourOf (get_latest_run_start (crop_to_hour reference_time) qs))
        else replace_hour (crop_to_hour reference_time)
          (hourOf (get_latest_run_start (crop_to_hour reference_time) qs - 6 * 60)),
      rfl, ?_⟩
    split <;> rw [replace_hour_emod60] <;> exact crop_to_hour_emod60 _
  rw [hlc_eq]
  have hcnt : pyRangeLen (L + 1) i = (L / i).toNat + 1 := by
    unfold pyRangeLen
    rw [if_neg (by omega)]
    have h1 : L + 1 - 1 = L := by ring
    rw [h1]
  constructor
  · rw [List.length_map]
    unfold pyRange0
    rw [List.length_map, List.length_range, hcnt]
  · unfold pyRange0
    rw [List.map_map, hcnt,
      show (L / i).toNat + 1 = Nat.succ ((L / i).toNat) from rfl,
      List.chain'_map, List.chain'_range_succ]
    intro m hm
    simp only [Function.comp]
    set t1 : Int := lc - (m : Int) * i * 60 with ht1def
    set t2 : Int := lc - ((Nat.succ m : Nat) : Int) * i * 60 with ht2def
    have ht1 : t1 % 60 = 0 := by
      rw [ht1def, show lc - (m : Int) * i * 60 = lc - ((m : Int) * i) * 60 from by ring,
        emod_sub_mul_self, hlc60]
    have ht12 : t2 = t1 - 60 * i := by
      rw [ht1def, ht2def]
      push_cast
      ring
    have ht2 : t2 % 60 = 0 := by
      rw [ht12, show t1 - 60 * i = t1 - i * 60 from by ring, emod_sub_mul_self,
        ht1]
    have hq1 := qtMinutes_build_qt qs t1 ht1 hi hd
    have hq2 := qtMinutes_build_qt qs t2 ht2 hi hd
    have hstab : t2 % (60 * i) = t1 % (60 * i) := by
      rw [ht12, show t1 - 60 * i = t1 - 1 * (60 * i) from by ring,
        emod_sub_mul_self]
    have hdiff : qtMinutes (build_qt t1 qs) - qtMinutes (build_qt t2 qs) =
        60 * i := by
      rw [hq1, hq2, hstab, ht12]
      ring
    have hpos : 0 < 60 * i := by positivity
    exact ⟨by omega, hdiff⟩

/-- C4 counterexample to the claim as stated: with forecast interval 5 (a
positive interval not dividing 24) and lookback 5, the reference time
day 1 00:00 and a far-future wall clock, the two returned cycles are
(day 1, 00Z) and (day 0, 15Z) — 540 minutes apart, not the claimed
5 hours = 300 minutes. -/
theorem c4_counterexample :
    generate_qt_batch 1440 (mkQS 5 5) 1000000 =
      [{ date_utc := 1, cycle_hour_utc := 0 },
       { date_utc := 0, cycle_hour_utc := 15 }] ∧
    ((mkQS 5 5).settings.max_lookback_hours /
        (mkQS 5 5).settings.forecast_interval_hours).toNat + 1 = 2 ∧
    qtMinutes { date_utc := 1, cycle_hour_utc := 0 } -
        qtMinutes { date_utc := 0, cycle_hour_utc := 15 } ≠
      60 * (mkQS 5 5).settings.forecast_interval_hours := by decide

/-- Witness for the amended C4 at a concrete input (interval 6, lookback 12,
reference and wall-clock time minute 1470). -/
theorem c4_batch_length_spacing_witness :
    (0 < (mkQS 6 12).settings.forecast_interval_hours ∧
     (mkQS 6 12).settings.forecast_interval_hours ∣ 24 ∧
     0 ≤ (mkQS 6 12).settings.max_lookback_hours) ∧
    ((generate_qt_batch 1470 (mkQS 6 12) 1470).length =
      ((mkQS 6 12).settings.max_lookback_hours /
        (mkQS 6 12).settings.forecast_interval_hours).toNat + 1 ∧
     List.Chain' (fun a b => qtMinutes b < qtMinutes a ∧
       qtMinutes a - qtMinutes b =
         60 * (mkQS 6 12).settings.forecast_interval_hours)
       (generate_qt_batch 1470 (mkQS 6 12) 1470)) :=
  ⟨⟨by decide, ⟨4, by decide⟩, by decide⟩,
   c4_batch_length_spacing 1470 1470 (mkQS 6 12) (by decide) ⟨4, by decide⟩
     (by decide)⟩

/-! ## URL encoding (Python `urllib.parse.urlencode` with `quote_plus`) -/

/-- UTF-8 bytes of a code point (as natural numbers). -/
def utf8Bytes (n : Nat) : List Nat :=
  if n < 128 then [n]
  else if n < 2048 then [192 + n / 64, 128 + n % 64]
  else if n < 65536 then
    [224 + n / 4096, 128 + n / 64 % 64, 128 + n % 64]
  else
    [240 + n / 262144, 128 + n / 4096 % 64, 128 + n / 64 % 64, 128 + n % 64]

/-- Uppercase hexadecimal digit, as percent-encoding renders bytes (total for
convenience; only values below 16 occur). -/
def hexUpper (d : Nat) : Char :=
  if d < 10 then Char.ofNat (48 + d)
  else if d < 16 then Char.ofNat (55 + d)
  else 'F'

/-- Percent-encoding of one byte. -/
def percentByte (b : Nat) : List Char :=
  ['%', hexUpper (b / 16), hexUpper (b % 16)]

/-- The characters `quote_plus` leaves unencoded (ASCII alphanumerics and
`_.-~`). -/
def safeChar (c : Char) : Bool :=
  ('0' ≤ c && c ≤ '9') || ('a' ≤ c && c ≤ 'z') || ('A' ≤ c && c ≤ 'Z') ||
    c == '_' || c == '.' || c == '-' || c == '~'

/-- `quote_plus` on one character: safe characters pass through, space becomes
`+`, everything else is percent-encoded byte by byte (UTF-8). -/
def quotePlusChar (c : Char) : List Char :=
  if safeChar c then [c]
  else if c = ' ' then ['+']
  else (utf8Bytes c.toNat).foldr (fun b acc => percentByte b ++ acc) []

/-- Python `urllib.parse.quote_plus` with empty `safe` (the form `urlencode`
applies to every key and value). -/
def quotePlus (s : List Char) : List Char :=
  s.foldr (fun c acc => quotePlusChar c ++ acc) []

/-- Python `urllib.parse.urlencode` on a list of pairs: each pair as
`quote_plus(k)=quote_plus(v)`, pairs joined by `&`. -/
def urlencodePairs : List (List Char × List Char) → List Char
  | [] => []
  | [p] => quotePlus p.1 ++ '=' :: quotePlus p.2
  | p :: ps => (quotePlus p.1 ++ '=' :: quotePlus p.2) ++ '&' :: urlencodePairs ps

/-- Splitting a string on `&`, as `url.split("&")` would. -/
def splitAmp : List Char → List (List Char)
  | [] => [[]]
  | c :: rest =>
    if c = '&' then [] :: splitAmp rest
    else
      match splitAmp rest with
      | [] => [[c]]
      | w :: ws => (c :: w) :: ws

/-! ## Query building (src/noaa_query_builder.py) -/

/-- Embeds `get_url_encoded_keys`: URL-encode `prefix+key=on` for every key
whose mask bit is set. -/
def get_url_encoded_keys (all_keys : List (List Char)) (hex_mask : List Char)
    (pfx : List Char) : Option (List Char) :=
  (get_binary_mask_from_hex hex_mask all_keys.length).map fun binary_mask =>
    urlencodePairs (((all_keys.zip binary_mask).filter fun p => p.2 != 0).map
      fun p => (pfx ++ p.1, "on".toList))

/-- Embeds `collect_query_arguments`: the variables fragment, levels fragment
and subregion fragment.  The subregion fragment is
`"=".join(["subregion", urlencode(bounding_box.model_dump())])`, with the
bounding box serialised in field declaration order (toplat, leftlon, rightlon,
bottomlat); `render` models Python's `str` on the float field values.  `none`
models the `ValueError` an unparsable mask raises. -/
def collect_query_arguments (qs : QueryStructure) (render : ℚ → List Char) :
    Option (List Char × List Char × List Char) :=
  match get_url_encoded_keys qs.variables_keys.all_keys
      qs.variables_keys.hex_mask qs.variables_keys.pfx,
    get_url_encoded_keys qs.levels.all_keys qs.levels.hex_mask
      qs.levels.pfx with
  | some vs, some ls =>
    some (vs, ls,
      "subregion".toList ++ '=' :: urlencodePairs
        [("toplat".toList, render qs.bounding_box.toplat),
         ("leftlon".toList, render qs.bounding_box.leftlon),
         ("rightlon".toList, render qs.bounding_box.rightlon),
         ("bottomlat".toList, render qs.bounding_box.bottomlat)])
  | _, _ => none

/-- The `query_string` local of `build_query_url`:
`"&".join([core, variables, levels, subregion])` where `core` URL-encodes the
`dir` and `file` parameters. -/
def build_query_string (qt : QueryTime)
    (qa : List Char × List Char × List Char) (qs : QueryStructure) :
    List Char :=
  urlencodePairs [("dir".toList, qs.query_model.dir qt),
    ("file".toList, qs.query_model.file qt)] ++
    '&' :: (qa.1 ++ '&' :: (qa.2.1 ++ '&' :: qa.2.2))

/-- Embeds `build_query_url`: the formatted base URI, `?`, and the query
string. -/
def build_query_url (qt : QueryTime)
    (qa : List Char × List Char × List Char) (qs : QueryStructure) :
    List Char :=
  qs.settings.grib_url qs.query_model.filter ++ '?' :: build_query_string qt qa qs

/-- Embeds `generate_query_urls` (the generator materialised as a list; the
source recomputes `collect_query_arguments` per cycle, with the same pure
result, and an exception aborts the whole generator — hence `Option`). -/
def generate_query_urls (qt_batch : List QueryTime) (qs : QueryStructure)
    (render : ℚ → List Char) : Option (List (List Char)) :=
  match qt_batch with
  | [] => some []
  | qt :: rest =>
    match collect_query_arguments qs render,
        generate_query_urls rest qs render with
    | some qa, some urls => some (build_query_url qt qa qs :: urls)
    | _, _ => none

/-- The query-string part of a URL: everything after the first `?`. -/
def queryStringOf (u : List Char) : List Char :=
  (u.dropWhile fun c => c != '?').drop 1

/-! ## Claim C2: bounding-box query parameters -/

/-- `splitAmp` never returns an empty list of components. -/
theorem splitAmp_ne_nil : ∀ l, splitAmp l ≠ [] := by
  intro l
  induction l with
  | nil => simp [splitAmp]
  | cons c rest ih =>
    unfold splitAmp
    by_cases h : c = '&'
    · simp [h]
    · rw [if_neg h]
      cases hs : splitAmp rest with
      | nil => simp
      | cons w ws => simp

/-- Equation: splitting an empty string. -/
theorem splitAmp_nil : splitAmp [] = [[]] := rfl

/-- Equation: splitting at a leading separator. -/
theorem splitAmp_amp_cons (rest : List Char) :
    splitAmp ('&' :: rest) = [] :: splitAmp rest := by
  simp [splitAmp]

/-- Equation: a non-separator character extends the first component. -/
theorem splitAmp_cons_ne (c : Char) (h : c ≠ '&') {rest : List Char}
    {w : List Char} {ws : List (List Char)} (hs : splitAmp rest = w :: ws) :
    splitAmp (c :: rest) = (c :: w) :: ws := by
  simp [splitAmp, h, hs]

/-- Splitting distributes over a separator between two strings. -/
theorem splitAmp_append_amp :
    ∀ a b, splitAmp (a ++ '&' :: b) = splitAmp a ++ splitAmp b := by
  intro a
  induction a with
  | nil =>
    intro b
    rw [List.nil_append, splitAmp_amp_cons, splitAmp_nil]
    rfl
  | cons c rest ih =>
    intro b
    by_cases h : c = '&'
    · subst h
      rw [List.cons_append, splitAmp_amp_cons, splitAmp_amp_cons, ih b,
        List.cons_append]
    · obtain ⟨w, ws, hs⟩ : ∃ w ws, splitAmp rest = w :: ws := by
        cases hsa : splitAmp rest with
        | nil => exact absurd hsa (splitAmp_ne_nil rest)
        | cons w ws => exact ⟨w, ws, rfl⟩
      obtain ⟨w2, ws2, hs2⟩ : ∃ w2 ws2, splitAmp (rest ++ '&' :: b) = w2 :: ws2 := by
        cases hsa : splitAmp (rest ++ '&' :: b) with
        | nil => exact absurd hsa (splitAmp_ne_nil _)
        | cons w2 ws2 => exact ⟨w2, ws2, rfl⟩
      rw [List.cons_append, splitAmp_cons_ne c h hs2, splitAmp_cons_ne c h hs]
      have hih := ih b
      rw [hs2, hs, List.cons_append] at hih
      injection hih with hw hws
      rw [hw, hws, List.cons_append]

/-- A separator-free string is one component. -/
theorem splitAmp_no_amp : ∀ l, '&' ∉ l → splitAmp l = [l] := by
  intro l
  induction l with
  | nil => intro _; rfl
  | cons c rest ih =>
    intro h
    have hc : c ≠ '&' := fun he => h (he ▸ List.mem_cons_self c rest)
    have hr : '&' ∉ rest := fun hm => h (List.mem_cons_of_mem _ hm)
    rw [splitAmp_cons_ne c hc (ih hr)]

/-- Membership is preserved by appending separator-free strings. -/
theorem no_amp_append {a b : List Char} (ha : '&' ∉ a) (hb : '&' ∉ b) :
    '&' ∉ a ++ b := fun hm => (List.mem_append.mp hm).elim ha hb

/-- Hexadecimal digit characters are never the separator. -/
theorem hexUpper_ne_amp (d : Nat) : hexUpper d ≠ '&' := by
  unfold hexUpper
  split
  · rename_i h
    interval_cases d <;> decide
  · split
    · rename_i h1 h2
      have h3 : 10 ≤ d := by omega
      interval_cases d <;> decide
    · decide

/-- Percent-encoded bytes contain no separator. -/
theorem percentByte_no_amp (b : Nat) : '&' ∉ percentByte b := by
  intro hm
  unfold percentByte at hm
  simp only [List.mem_cons, List.not_mem_nil, or_false] at hm
  rcases hm with h | h | h
  · exact absurd h (by decide)
  · exact hexUpper_ne_amp (b / 16) h.symm
  · exact hexUpper_ne_amp (b % 16) h.symm

/-- `quote_plus` output never contains the pair separator `&`. -/
theorem quotePlusChar_no_amp (c : Char) : '&' ∉ quotePlusChar c := by
  unfold quotePlusChar
  split
  · rename_i hsafe
    intro hm
    simp only [List.mem_singleton] at hm
    subst hm
    exact absurd hsafe (by decide)
  · split
    · intro hm
      simp only [List.mem_singleton] at hm
      exact absurd hm (by decide)
    · intro hm
      generalize utf8Bytes c.toNat = bs at hm
      induction bs with
      | nil => simp at hm
      | cons b bs ih =>
        rw [List.foldr_cons] at hm
        rcases List.mem_append.mp hm with h | h
        · exact percentByte_no_amp b h
        · exact ih h

/-- `quote_plus` output never contains the pair separator `&`. -/
theorem quotePlus_no_amp (s : List Char) : '&' ∉ quotePlus s := by
  unfold quotePlus
  induction s with
  | nil => simp
  | cons c rest ih =>
    rw [List.foldr_cons]
    intro hm
    rcases List.mem_append.mp hm with h | h
    · exact quotePlusChar_no_amp c h
    · exact ih h

/-- Splitting the subregion fragment of `collect_query_arguments`: `toplat`
is glued to the `subregion` parameter, the other three fields are standalone
components. -/
theorem splitAmp_subregion_fragment (v1 v2 v3 v4 : List Char) :
    splitAmp ("subregion".toList ++ '=' :: urlencodePairs
      [("toplat".toList, v1), ("leftlon".toList, v2),
       ("rightlon".toList, v3), ("bottomlat".toList, v4)]) =
      [("subregion=toplat=".toList ++ quotePlus v1),
       ("leftlon=".toList ++ quotePlus v2),
       ("rightlon=".toList ++ quotePlus v3),
       ("bottomlat=".toList ++ quotePlus v4)] := by
  show splitAmp (("subregion=toplat=".toList ++ quotePlus v1) ++ '&' ::
      (("leftlon=".toList ++ quotePlus v2) ++ '&' ::
        (("rightlon=".toList ++ quotePlus v3) ++ '&' ::
          ("bottomlat=".toList ++ quotePlus v4)))) = _
  rw [splitAmp_append_amp, splitAmp_append_amp, splitAmp_append_amp,
    splitAmp_no_amp _ (no_amp_append (by decide) (quotePlus_no_amp v1)),
    splitAmp_no_amp _ (no_amp_append (by decide) (quotePlus_no_amp v2)),
    splitAmp_no_amp _ (no_amp_append (by decide) (quotePlus_no_amp v3)),
    splitAmp_no_amp _ (no_amp_append (by decide) (quotePlus_no_amp v4))]
  rfl

/-- Every URL the generator yields comes from one of the query times, with
the (pure, per-iteration recomputed) query arguments. -/
theorem generate_query_urls_mem (qs : QueryStructure) (render : ℚ → List Char) :
    ∀ {qt_batch : List QueryTime} {urls : List (List Char)},
      generate_query_urls qt_batch qs render = some urls →
      ∀ u ∈ urls, ∃ qt ∈ qt_batch, ∃ qa,
        collect_query_arguments qs render = some qa ∧
        u = build_query_url qt qa qs := by
  intro qt_batch
  induction qt_batch with
  | nil =>
    intro urls h u hu
    simp only [generate_query_urls, Option.some.injEq] at h
    subst h
    simp at hu
  | cons qt rest ih =>
    intro urls h u hu
    cases hca : collect_query_arguments qs render with
    | none => rw [generate_query_urls, hca] at h; simp at h
    | some qa =>
      cases hrest : generate_query_urls rest qs render with
      | none => rw [generate_query_urls, hca, hrest] at h; simp at h
      | some tlurls =>
        rw [generate_query_urls, hca, hrest] at h
        simp only [Option.some.injEq] at h
        subst h
        rcases List.mem_cons.mp hu with rfl | hu2
        · exact ⟨qt, by simp, qa, rfl, rfl⟩
        · obtain ⟨qt2, hqt2, qa2, hqa2, hu3⟩ := ih hrest u hu2
          exact ⟨qt2, by simp [hqt2], qa2, by rw [← hca, hqa2], hu3⟩

/-- C2 (amended): every URL produced by `generate_query_urls` is the base URI,
`?`, and a query string whose `&`-split contains separate `leftlon=...`,
`rightlon=...` and `bottomlat=...` components carrying the bounding box's
(rendered, percent-encoded) field values — while the `toplat` field appears
only glued to the `subregion` parameter, as the single component
`subregion=toplat=<value>` (no separate `toplat=...` component is emitted). -/
theorem c2_bbox_components (qs : QueryStructure) (render : ℚ → List Char)
    (qt_batch : List QueryTime) (urls : List (List Char)) (u : List Char)
    (h1 : generate_query_urls qt_batch qs render = some urls)
    (h2 : u ∈ urls) :
    ∃ qt qa, collect_query_arguments qs render = some qa ∧
      u = qs.settings.grib_url qs.query_model.filter ++
        '?' :: build_query_string qt qa qs ∧
      ("leftlon=".toList ++ quotePlus (render qs.bounding_box.leftlon)) ∈
        splitAmp (build_query_string qt qa qs) ∧
      ("rightlon=".toList ++ quotePlus (render qs.bounding_box.rightlon)) ∈
        splitAmp (build_query_string qt qa qs) ∧
      ("bottomlat=".toList ++ quotePlus (render qs.bounding_box.bottomlat)) ∈
        splitAmp (build_query_string qt qa qs) ∧
      ("subregion=toplat=".toList ++
          quotePlus (render qs.bounding_box.toplat)) ∈
        splitAmp (build_query_string qt qa qs) := by
  obtain ⟨qt, _, qa, hqa, hu⟩ := generate_query_urls_mem qs render h1 u h2
  cases hv : get_url_encoded_keys qs.variables_keys.all_keys
      qs.variables_keys.hex_mask qs.variables_keys.pfx with
  | none =>
    unfold collect_query_arguments at hqa
    rw [hv] at hqa
    simp at hqa
  | some vs =>
    cases hl : get_url_encoded_keys qs.levels.all_keys qs.levels.hex_mask
        qs.levels.pfx with
    | none =>
      unfold collect_query_arguments at hqa
      rw [hv, hl] at hqa
      simp at hqa
    | some ls =>
      have hqa2 : qa = (vs, ls,
          "subregion".toList ++ '=' :: urlencodePairs
            [("toplat".toList, render qs.bounding_box.toplat),
             ("leftlon".toList, render qs.bounding_box.leftlon),
             ("rightlon".toList, render qs.bounding_box.rightlon),
             ("bottomlat".toList, render qs.bounding_box.bottomlat)]) := by
        unfold collect_query_arguments at hqa
        rw [hv, hl] at hqa
        simp only [Option.some.injEq] at hqa
        exact hqa.symm
      subst hqa2
      have hsplit : splitAmp (build_query_string qt (vs, ls,
          "subregion".toList ++ '=' :: urlencodePairs
            [("toplat".toList, render qs.bounding_box.toplat),
             ("leftlon".toList, render qs.bounding_box.leftlon),
             ("rightlon".toList, render qs.bounding_box.rightlon),
             ("bottomlat".toList, render qs.bounding_box.bottomlat)]) qs) =
          splitAmp (urlencodePairs [("dir".toList, qs.query_model.dir qt),
            ("file".toList, qs.query_model.file qt)]) ++
          (splitAmp vs ++ (splitAmp ls ++
            [("subregion=toplat=".toList ++
                quotePlus (render qs.bounding_box.toplat)),
             ("leftlon=".toList ++ quotePlus (render qs.bounding_box.leftlon)),
             ("rightlon=".toList ++
                quotePlus (render qs.bounding_box.rightlon)),
             ("bottomlat=".toList ++
                quotePlus (render qs.bounding_box.bottomlat))])) := by
        unfold build_query_string
        rw [splitAmp_append_amp, splitAmp_append_amp, splitAmp_append_amp,
          splitAmp_subregion_fragment]
      refine ⟨qt, _, hqa, hu, ?_, ?_, ?_, ?_⟩ <;> rw [hsplit]
      · exact List.mem_append_right _ (List.mem_append_right _
          (List.mem_append_right _ (by simp)))
      · exact List.mem_append_right _ (List.mem_append_right _
          (List.mem_append_right _ (by simp)))
      · exact List.mem_append_right _ (List.mem_append_right _
          (List.mem_append_right _ (by simp)))
      · exact List.mem_append_right _ (List.mem_append_right _
          (List.mem_append_right _ (by simp)))

/-- A concrete query structure for evaluating the URL builder: bounding box
(90, 340, 0, 75), empty variable/level selections, literal templates. -/
def qsC2 : QueryStructure :=
  { bounding_box := ⟨90, 340, 0, 75⟩,
    query_model := ⟨"gfs".toList, "f".toList, fun _ => "F".toList,
      fun _ => "D".toList⟩,
    variables_keys := ⟨[], "0x0".toList, "var_".toList⟩,
    levels := ⟨[], "0x0".toList, "lev_".toList⟩,
    current_time := 0,
    settings := ⟨fun f => "http://x/".toList ++ f, 6, 6⟩ }

/-- A concrete `str(float)` rendering for evaluating the URL builder (the
rendering is irrelevant to the component structure). -/
def renderC : ℚ → List Char := fun _ => "7".toList

/-- C2 counterexample to the claim as stated: at a concrete query structure,
`generate_query_urls` yields exactly one URL, and splitting that URL's query
string (the part after `?`) on `&` yields no component starting with
`toplat=` whatsoever — the toplat field is swallowed into the
`subregion=toplat=...` component. -/
theorem c2_counterexample :
    (generate_query_urls [⟨0, 0⟩] qsC2 renderC).map List.length = some 1 ∧
    ((generate_query_urls [⟨0, 0⟩] qsC2 renderC).getD []).all
      (fun u => (splitAmp (queryStringOf u)).all
        fun comp => comp.take 7 != "toplat=".toList) = true := by
  exact ⟨by decide, by decide⟩

/-- Witness for the amended C2 at the concrete query structure. -/
theorem c2_bbox_components_witness :
    (generate_query_urls [⟨0, 0⟩] qsC2 renderC = some
      ["http://x/f?dir=D&file=F&&&subregion=toplat=7&leftlon=7&rightlon=7&bottomlat=7".toList] ∧
     "http://x/f?dir=D&file=F&&&subregion=toplat=7&leftlon=7&rightlon=7&bottomlat=7".toList ∈
      (["http://x/f?dir=D&file=F&&&subregion=toplat=7&leftlon=7&rightlon=7&bottomlat=7".toList] :
        List (List Char))) ∧
    (∃ qt qa, collect_query_arguments qsC2 renderC = some qa ∧
      "http://x/f?dir=D&file=F&&&subregion=toplat=7&leftlon=7&rightlon=7&bottomlat=7".toList =
        qsC2.settings.grib_url qsC2.query_model.filter ++
          '?' :: build_query_string qt qa qsC2 ∧
      ("leftlon=".toList ++ quotePlus (renderC qsC2.bounding_box.leftlon)) ∈
        splitAmp (build_query_string qt qa qsC2) ∧
      ("rightlon=".toList ++ quotePlus (renderC qsC2.bounding_box.rightlon)) ∈
        splitAmp (build_query_string qt qa qsC2) ∧
      ("bottomlat=".toList ++ quotePlus (renderC qsC2.bounding_box.bottomlat)) ∈
        splitAmp (build_query_string qt qa qsC2) ∧
      ("subregion=toplat=".toList ++
          quotePlus (renderC qsC2.bounding_box.toplat)) ∈
        splitAmp (build_query_string qt qa qsC2)) :=
  ⟨⟨by decide, by decide⟩,
   c2_bbox_components qsC2 renderC [⟨0, 0⟩]
     ["http://x/f?dir=D&file=F&&&subregion=toplat=7&leftlon=7&rightlon=7&bottomlat=7".toList]
     "http://x/f?dir=D&file=F&&&subregion=toplat=7&leftlon=7&rightlon=7&bottomlat=7".toList
     (by decide) (by decide)⟩

/-! ## Fetch engine (src/noaa_grib_fetcher.py)

The HTTP status constants are read from `settings.toml`, which is not part of
src/.  Modelled from the spec: `http_settings.success = 200`,
`http_settings.not_found = 404`, `http_settings.server_error = 500`.  The
outcome of each HTTP attempt, the wall clock and the `random.random()` draw
are supplied by an environment; side effects are collected in a trace. -/

/-- Error classification strings of `fetch_with_retry`, as an enumeration
(one constructor per distinct string the source assigns). -/
inductive ErrorType where
  | server_error
  | client_error
  | timeout
  | network_error
  | unknown_error
deriving DecidableEq

/-- What a single `httpx.get` call does: returns a status with a body, or
raises one of the caught exception classes. -/
inductive TryOutcome where
  | status (code : Nat) (body : List Nat)
  | timeout
  | networkError
  | unknownError
deriving DecidableEq

/-- Environment of one attempt: its HTTP outcome, the `datetime.now` reading
for the attempt record, and the `random.random()` draw for the backoff. -/
structure AttemptEnv where
  outcome : TryOutcome
  now : Int
  rand : ℚ

/-- Embeds `FetchAttempt`. -/
structure FetchAttempt where
  url : List Char
  status_code : Option Nat
  error_type : Option ErrorType
  timestamp : Int
deriving DecidableEq

/-- Embeds `FetchResult`. -/
structure FetchResult where
  data : Option (List Nat)
  attempts : List FetchAttempt
  success : Bool
  total_duration_seconds : ℚ
deriving DecidableEq

/-- One observable side effect of the fetch engine. -/
inductive Effect where
  | sleep (seconds : ℚ)
  | request (url : List Char)
  | mkdirParents (dir : List Char)
  | writeBytes (path : List Char) (payload : List Nat)
deriving DecidableEq

/-- Embeds `calculate_exponential_backoff`; `initial_delay` and `max_delay`
default to settings values in the source and are parameters here; `r` is the
`random.random()` draw (in `[0, 1)`). -/
def calculate_exponential_backoff (attempt : Nat)
    (initial_delay max_delay r : ℚ) : ℚ :=
  let delay := min (initial_delay * 2 ^ attempt) max_delay
  delay + delay * 0.2 * (2 * r - 1)

/-- Embeds `should_retry_status_code` (`not_found = 404`,
`server_error = 500`, modelled from the spec as above). -/
def should_retry_status_code (status_code : Nat) : Bool :=
  if status_code = 404 then false else decide (500 ≤ status_code)

/-- Embeds `fetch_with_retry`: classify the outcome, record the attempt;
the response (with its body) is returned only on status 200 (`success`). -/
def fetch_with_retry (url : List Char) (e : AttemptEnv) :
    Option (List Nat) × FetchAttempt :=
  match e.outcome with
  | .status c body =>
    if c = 200 then (some body, ⟨url, some c, none, e.now⟩)
    else if c = 404 then (none, ⟨url, some c, none, e.now⟩)
    else if 500 ≤ c then (none, ⟨url, some c, some .server_error, e.now⟩)
    else (none, ⟨url, some c, some .client_error, e.now⟩)
  | .timeout => (none, ⟨url, none, some .timeout, e.now⟩)
  | .networkError => (none, ⟨url, none, some .network_error, e.now⟩)
  | .unknownError => (none, ⟨url, none, some .unknown_error, e.now⟩)

/-- The `if attempt.status_code and not should_retry_status_code(...)` guard:
Python truthiness makes `None` and `0` falsy. -/
def breakNow (a : FetchAttempt) : Bool :=
  match a.status_code with
  | some c => (c != 0) && !should_retry_status_code c
  | none => false

/-- The `for attempt_num in range(max_attempts)` loop of
`fetch_with_exponential_backoff`: `i` is the current attempt index, `fuel`
the remaining iterations (`fuel = maxA - i` at every reachable call).
Returns the response payload (if any), the attempt records, and the effect
trace. -/
def backoffAux (url : List Char) (env : Nat → AttemptEnv) (maxA : Nat)
    (initial_delay max_delay : ℚ) :
    Nat → Nat → Option (List Nat) × List FetchAttempt × List Effect
  | _, 0 => (none, [], [])
  | i, fuel + 1 =>
    match fetch_with_retry url (env i) with
    | (some p, att) => (some p, [att], [.request url])
    | (none, att) =>
      if breakNow att then (none, [att], [.request url])
      else if i + 1 < maxA then
        ((backoffAux url env maxA initial_delay max_delay (i + 1) fuel).1,
         att :: (backoffAux url env maxA initial_delay max_delay (i + 1) fuel).2.1,
         .request url :: .sleep (calculate_exponential_backoff i
           initial_delay max_delay (env i).rand) ::
           (backoffAux url env maxA initial_delay max_delay (i + 1) fuel).2.2)
      else (none, [att], [.request url])

/-- Embeds `fetch_with_exponential_backoff` (`max_attempts` defaults to a
settings value in the source and is a parameter here). -/
def fetch_with_exponential_backoff (url : List Char) (env : Nat → AttemptEnv)
    (max_attempts : Nat) (initial_delay max_delay : ℚ) :
    Option (List Nat) × List FetchAttempt × List Effect :=
  backoffAux url env max_attempts initial_delay max_delay 0 max_attempts

/-- Settings consumed by `fetch_most_recent_forecast` (all read from
configuration in the source). -/
structure FetchSettings where
  max_attempts : Nat
  initial_delay : ℚ
  max_delay : ℚ
  rate_limit : ℚ

/-- Destination path: its name and its parent directory (the two objects the
source's `output_path.parent.mkdir` / `output_path.write_bytes` touch). -/
structure OutPath where
  name : List Char
  parent : List Char

/-- The URL loop of `fetch_most_recent_forecast`: rate-limit sleep before
every URL but the first, per-URL retry loop, write-and-return on success.
`elapsed` models the `time.time()` difference reported in the result. -/
def mrfAux (env : Nat → Nat → AttemptEnv) (cfg : FetchSettings)
    (out : OutPath) (elapsed : ℚ) :
    List (List Char) → Nat → Bool → List FetchAttempt → List Effect →
      FetchResult × List Effect
  | [], _, _, acc, tr => (⟨none, acc, false, elapsed⟩, tr)
  | url :: rest, idx, first, acc, tr =>
    match fetch_with_exponential_backoff url (env idx) cfg.max_attempts
        cfg.initial_delay cfg.max_delay with
    | (some d, atts, effs) =>
      (⟨some d, acc ++ atts, true, elapsed⟩,
       ((if first then tr else tr ++ [Effect.sleep cfg.rate_limit]) ++ effs) ++
         [Effect.mkdirParents out.parent, Effect.writeBytes out.name d])
    | (none, atts, effs) =>
      mrfAux env cfg out elapsed rest (idx + 1) false (acc ++ atts)
        ((if first then tr else tr ++ [Effect.sleep cfg.rate_limit]) ++ effs)

/-- Embeds `fetch_most_recent_forecast` (the lazy URL sequence materialised
as a list; `env i j` is the environment of attempt `j` at URL `i`). -/
def fetch_most_recent_forecast (query_urls : List (List Char))
    (env : Nat → Nat → AttemptEnv) (cfg : FetchSettings) (output_path : OutPath)
    (elapsed : ℚ) : FetchResult × List Effect :=
  mrfAux env cfg output_path elapsed query_urls 0 true [] []

/-! ## Claim C6: result invariants -/

/-- A successful per-URL loop has recorded at least one attempt. -/
theorem backoff_some_attempts_ne_nil (url : List Char)
    (env : Nat → AttemptEnv) (maxA : Nat) (a b : ℚ) :
    ∀ fuel i, (backoffAux url env maxA a b i fuel).1.isSome = true →
      (backoffAux url env maxA a b i fuel).2.1 ≠ [] := by
  intro fuel
  induction fuel with
  | zero => intro i h; simp [backoffAux] at h
  | succ fuel ih =>
    intro i h
    cases hf : fetch_with_retry url (env i) with
    | mk resp att =>
      cases resp with
      | some p => simp [backoffAux, hf]
      | none =>
        by_cases hb : breakNow att
        · simp [backoffAux, hf, hb] at h
        · by_cases hi : i + 1 < maxA
          · simp [backoffAux, hf, hb, hi]
          · simp [backoffAux, hf, hb, hi] at h

/-- C6: every `FetchResult` of `fetch_most_recent_forecast` has a payload
exactly when its success flag is set, and a successful result has a non-empty
attempt log (stated as: `success` never holds together with an empty
attempt list). -/
theorem c6_result_invariants (query_urls : List (List Char))
    (env : Nat → Nat → AttemptEnv) (cfg : FetchSettings) (out : OutPath)
    (elapsed : ℚ) :
    (fetch_most_recent_forecast query_urls env cfg out elapsed).1.data.isSome =
      (fetch_most_recent_forecast query_urls env cfg out elapsed).1.success ∧
    ((fetch_most_recent_forecast query_urls env cfg out elapsed).1.success &&
      (fetch_most_recent_forecast query_urls env cfg out
        elapsed).1.attempts.isEmpty) = false := by
  suffices h : ∀ (urls : List (List Char)) (idx : Nat) (first : Bool)
      (acc : List FetchAttempt) (tr : List Effect),
      (mrfAux env cfg out elapsed urls idx first acc tr).1.data.isSome =
        (mrfAux env cfg out elapsed urls idx first acc tr).1.success ∧
      ((mrfAux env cfg out elapsed urls idx first acc tr).1.success &&
        (mrfAux env cfg out elapsed urls idx first acc
          tr).1.attempts.isEmpty) = false by
    exact h query_urls 0 true [] []
  intro urls
  induction urls with
  | nil => intro idx first acc tr; simp [mrfAux]
  | cons url rest ih =>
    intro idx first acc tr
    cases hb : fetch_with_exponential_backoff url (env idx) cfg.max_attempts
        cfg.initial_delay cfg.max_delay with
    | mk resp patts =>
      cases resp with
      | some d =>
        have hne : (fetch_with_exponential_backoff url (env idx)
            cfg.max_attempts cfg.initial_delay cfg.max_delay).2.1 ≠ [] := by
          apply backoff_some_attempts_ne_nil
          show (fetch_with_exponential_backoff url (env idx)
            cfg.max_attempts cfg.initial_delay cfg.max_delay).1.isSome = true
          rw [hb]
          rfl
        rw [hb] at hne
        have h2 : acc ++ patts.1 ≠ [] := by
          intro hnil
          exact hne (List.append_eq_nil.mp hnil).2
        simp only [mrfAux, hb]
        constructor
        · rfl
        · simp only [Bool.true_and]
          cases hc : acc ++ patts.1 with
          | nil => exact absurd hc h2
          | cons x xs => rfl
      | none =>
        simp only [mrfAux, hb]
        exact ih (idx + 1) false (acc ++ patts.1)
          ((if first then tr else tr ++ [Effect.sleep cfg.rate_limit]) ++
            patts.2)

/-! ## Claim C5: per-URL retry policy -/

/-- An attempt outcome the loop retries: a caught exception (timeout, network
error, unknown error) or a status that neither succeeds nor breaks the loop
(server error `≥ 500`, or the unreachable falsy status 0). -/
def retryableTry : TryOutcome → Bool
  | .status c _ => (c != 200) && ((c == 0) || should_retry_status_code c)
  | _ => true

/-- Unfolding `fetch_with_retry` at a status outcome. -/
theorem fetch_with_retry_status (url : List Char) (e : AttemptEnv) (c : Nat)
    (body : List Nat) (h : e.outcome = TryOutcome.status c body) :
    fetch_with_retry url e =
      if c = 200 then (some body, ⟨url, some c, none, e.now⟩)
      else if c = 404 then (none, ⟨url, some c, none, e.now⟩)
      else if 500 ≤ c then
        (none, ⟨url, some c, some ErrorType.server_error, e.now⟩)
      else (none, ⟨url, some c, some ErrorType.client_error, e.now⟩) := by
  unfold fetch_with_retry
  rw [h]

/-- A retryable attempt yields no response and does not break the loop. -/
theorem retryable_step (url : List Char) (e : AttemptEnv)
    (h : retryableTry e.outcome = true) :
    (fetch_with_retry url e).1 = none ∧
    breakNow (fetch_with_retry url e).2 = false := by
  cases ho : e.outcome with
  | status c body =>
    rw [ho] at h
    simp only [retryableTry, Bool.and_eq_true, Bool.or_eq_true, bne_iff_ne,
      beq_iff_eq] at h
    obtain ⟨h200, hrest⟩ := h
    rw [fetch_with_retry_status url e c body ho, if_neg h200]
    have h404 : c ≠ 404 := by
      intro hc
      subst hc
      rcases hrest with h | h
      · omega
      · rw [should_retry_status_code] at h
        simp at h
    rw [if_neg h404]
    by_cases h500 : 500 ≤ c
    · rw [if_pos h500]
      refine ⟨rfl, ?_⟩
      unfold breakNow should_retry_status_code
      simp [h404, h500]
    · rw [if_neg h500]
      have hc0 : c = 0 := by
        rcases hrest with h | h
        · exact h
        · rw [should_retry_status_code, if_neg h404] at h
          simp at h
          omega
      subst hc0
      exact ⟨rfl, rfl⟩
  | timeout =>
    have : fetch_with_retry url e =
        (none, ⟨url, none, some ErrorType.timeout, e.now⟩) := by
      unfold fetch_with_retry
      rw [ho]
    rw [this]
    exact ⟨rfl, rfl⟩
  | networkError =>
    have : fetch_with_retry url e =
        (none, ⟨url, none, some ErrorType.network_error, e.now⟩) := by
      unfold fetch_with_retry
      rw [ho]
    rw [this]
    exact ⟨rfl, rfl⟩
  | unknownError =>
    have : fetch_with_retry url e =
        (none, ⟨url, none, some ErrorType.unknown_error, e.now⟩) := by
      unfold fetch_with_retry
      rw [ho]
    rw [this]
    exact ⟨rfl, rfl⟩

/-- A first attempt with a non-success, non-5xx, non-zero status (404
included) terminates the per-URL loop immediately: one attempt, no payload. -/
theorem backoff_break_first (url : List Char) (env : Nat → AttemptEnv)
    (maxA : Nat) (a b : ℚ) (c : Nat) (body : List Nat)
    (hA1 : 1 ≤ maxA) (hA2 : (env 0).outcome = TryOutcome.status c body)
    (h200 : c ≠ 200) (h500 : c < 500) (h0 : c ≠ 0) :
    (fetch_with_exponential_backoff url env maxA a b).1 = none ∧
    (fetch_with_exponential_backoff url env maxA a b).2.1.length = 1 := by
  obtain ⟨k, rfl⟩ : ∃ k, maxA = k + 1 := ⟨maxA - 1, by omega⟩
  have hf : fetch_with_retry url (env 0) = (none,
      ⟨url, some c, if c = 404 then none else some ErrorType.client_error,
        (env 0).now⟩) := by
    rw [fetch_with_retry_status url (env 0) c body hA2, if_neg h200]
    by_cases h404 : c = 404
    · rw [if_pos h404, if_pos h404]
    · rw [if_neg h404, if_neg (by omega : ¬ 500 ≤ c), if_neg h404]
  have hbn : breakNow ⟨url, some c,
      if c = 404 then none else some ErrorType.client_error,
      (env 0).now⟩ = true := by
    unfold breakNow should_retry_status_code
    by_cases h404 : c = 404
    · simp [h404]
    · simp [h404, h0, show ¬ 500 ≤ c from by omega]
  show (backoffAux url env (k + 1) a b 0 (k + 1)).1 = none ∧
    (backoffAux url env (k + 1) a b 0 (k + 1)).2.1.length = 1
  simp [backoffAux, hf, hbn]

/-- A run of retryable attempts exhausts all remaining iterations with no
payload and one attempt record per iteration. -/
theorem backoff_all_retry (url : List Char) (env : Nat → AttemptEnv)
    (maxA : Nat) (a b : ℚ) :
    ∀ fuel i, i + fuel = maxA →
      (∀ j, j < maxA → retryableTry (env j).outcome = true) →
      (backoffAux url env maxA a b i fuel).1 = none ∧
      (backoffAux url env maxA a b i fuel).2.1.length = fuel := by
  intro fuel
  induction fuel with
  | zero => intro i _ _; simp [backoffAux]
  | succ fuel ih =>
    intro i hinv hr
    have hj : retryableTry (env i).outcome = true := hr i (by omega)
    obtain ⟨hresp, hbn⟩ := retryable_step url (env i) hj
    obtain ⟨att, hf⟩ : ∃ att, fetch_with_retry url (env i) = (none, att) := by
      cases hfr : fetch_with_retry url (env i) with
      | mk r att =>
        rw [hfr] at hresp
        simp only at hresp
        subst hresp
        exact ⟨att, rfl⟩
    rw [hf] at hbn
    simp only at hbn
    by_cases hi : i + 1 < maxA
    · obtain ⟨ih1, ih2⟩ := ih (i + 1) (by omega) hr
      simp only [backoffAux, hf, hbn, Bool.false_eq_true, if_false, if_pos hi]
      constructor
      · exact ih1
      · simp [ih2]
    · have hf0 : fuel = 0 := by omega
      subst hf0
      simp [backoffAux, hf, hbn, hi]

/-- A first-attempt 404 terminates the per-URL loop with one attempt. -/
theorem backoff_404_first (url : List Char) (env : Nat → AttemptEnv)
    (maxA : Nat) (a b : ℚ) (body : List Nat)
    (hm : 1 ≤ maxA) (h4 : (env 0).outcome = TryOutcome.status 404 body) :
    (fetch_with_exponential_backoff url env maxA a b).1 = none ∧
    (fetch_with_exponential_backoff url env maxA a b).2.1.length = 1 :=
  backoff_break_first url env maxA a b 404 body hm h4 (by omega) (by omega)
    (by omega)

/-- When every URL's first attempt is a 404, the whole operation fails with
no data and exactly one attempt per URL. -/
theorem mrf_all_404 (env : Nat → Nat → AttemptEnv) (cfg : FetchSettings)
    (out : OutPath) (elapsed : ℚ) (hm : 1 ≤ cfg.max_attempts)
    (h404 : ∀ i, ∃ body, (env i 0).outcome = TryOutcome.status 404 body) :
    ∀ (urls : List (List Char)) (idx : Nat) (first : Bool)
      (acc : List FetchAttempt) (tr : List Effect),
      (mrfAux env cfg out elapsed urls idx first acc tr).1.success = false ∧
      (mrfAux env cfg out elapsed urls idx first acc tr).1.data = none ∧
      (mrfAux env cfg out elapsed urls idx first acc tr).1.attempts.length =
        acc.length + urls.length := by
  intro urls
  induction urls with
  | nil => intro idx first acc tr; simp [mrfAux]
  | cons url rest ih =>
    intro idx first acc tr
    obtain ⟨body, hb⟩ := h404 idx
    obtain ⟨hnone, hlen⟩ := backoff_404_first url (env idx) cfg.max_attempts
      cfg.initial_delay cfg.max_delay body hm hb
    cases hfw : fetch_with_exponential_backoff url (env idx) cfg.max_attempts
        cfg.initial_delay cfg.max_delay with
    | mk resp patts =>
      rw [hfw] at hnone hlen
      simp only at hnone hlen
      subst hnone
      simp only [mrfAux, hfw]
      obtain ⟨ih1, ih2, ih3⟩ := ih (idx + 1) false (acc ++ patts.1)
        ((if first then tr else tr ++ [Effect.sleep cfg.rate_limit]) ++ patts.2)
      refine ⟨ih1, ih2, ?_⟩
      rw [ih3, List.length_append, hlen]
      simp only [List.length_cons]
      omega

/-- C5: per-URL retry policy.  (i) A first attempt whose HTTP status is 404
or any other non-success, non-5xx status (Python truthiness excludes the
unreachable status 0) terminates the loop immediately: exactly one attempt,
no payload.  (ii) Attempts classified server error, timeout, network error or
unknown error are retried up to `max_attempts` tries in total.  (iii) When
every URL's first try yields a 404, the fetch fails, the data is absent, and
the attempt log holds exactly one attempt per URL. -/
theorem c5_retry_policy (url urlB : List Char) (envA envB : Nat → AttemptEnv)
    (maxA : Nat) (a b : ℚ) (c : Nat) (body : List Nat)
    (envU : Nat → Nat → AttemptEnv) (cfg : FetchSettings) (out : OutPath)
    (elapsed : ℚ) (urls : List (List Char))
    (hA1 : 1 ≤ maxA) (hA2 : (envA 0).outcome = TryOutcome.status c body)
    (hA3 : c ≠ 200) (hA4 : c < 500) (hA5 : c ≠ 0)
    (hB : ∀ j, j < maxA → retryableTry (envB j).outcome = true)
    (hm : 1 ≤ cfg.max_attempts)
    (hU : ∀ i, ∃ bd, (envU i 0).outcome = TryOutcome.status 404 bd) :
    ((fetch_with_exponential_backoff url envA maxA a b).1 = none ∧
     (fetch_with_exponential_backoff url envA maxA a b).2.1.length = 1) ∧
    ((fetch_with_exponential_backoff urlB envB maxA a b).1 = none ∧
     (fetch_with_exponential_backoff urlB envB maxA a b).2.1.length = maxA) ∧
    ((fetch_most_recent_forecast urls envU cfg out elapsed).1.success = false ∧
     (fetch_most_recent_forecast urls envU cfg out elapsed).1.data = none ∧
     (fetch_most_recent_forecast urls envU cfg out
       elapsed).1.attempts.length = urls.length) := by
  refine ⟨backoff_break_first url envA maxA a b c body hA1 hA2 hA3 hA4 hA5,
    backoff_all_retry urlB envB maxA a b maxA 0 (by omega) hB, ?_⟩
  have := mrf_all_404 envU cfg out elapsed hm hU urls 0 true [] []
  simpa using this

/-- Witness for C5 at concrete environments: a 404 environment (one attempt),
an all-503 environment (two attempts at `max_attempts = 2`), and a two-URL
all-404 run (two attempts total, failure, no data). -/
theorem c5_retry_policy_witness :
    ((1 ≤ 2) ∧
     ((fun _ : Nat => AttemptEnv.mk (TryOutcome.status 404 []) 0 0) 0).outcome =
       TryOutcome.status 404 [] ∧
     (404 ≠ 200) ∧ (404 < 500) ∧ (404 ≠ 0) ∧
     (∀ j, j < 2 → retryableTry
       ((fun _ : Nat => AttemptEnv.mk (TryOutcome.status 503 []) 0 0)
         j).outcome = true) ∧
     1 ≤ (FetchSettings.mk 2 1 1 1).max_attempts ∧
     (∀ i : Nat, ∃ bd,
       ((fun _ _ : Nat => AttemptEnv.mk (TryOutcome.status 404 []) 0 0)
         i 0).outcome = TryOutcome.status 404 bd)) ∧
    (((fetch_with_exponential_backoff "u".toList
        (fun _ => AttemptEnv.mk (TryOutcome.status 404 []) 0 0) 2 1 1).1 =
          none ∧
      (fetch_with_exponential_backoff "u".toList
        (fun _ => AttemptEnv.mk (TryOutcome.status 404 []) 0 0) 2 1
          1).2.1.length = 1) ∧
     ((fetch_with_exponential_backoff "v".toList
        (fun _ => AttemptEnv.mk (TryOutcome.status 503 []) 0 0) 2 1 1).1 =
          none ∧
      (fetch_with_exponential_backoff "v".toList
        (fun _ => AttemptEnv.mk (TryOutcome.status 503 []) 0 0) 2 1
          1).2.1.length = 2) ∧
     ((fetch_most_recent_forecast ["a".toList, "b".toList]
        (fun _ _ => AttemptEnv.mk (TryOutcome.status 404 []) 0 0)
        (FetchSettings.mk 2 1 1 1) (OutPath.mk "p".toList "q".toList)
        0).1.success = false ∧
      (fetch_most_recent_forecast ["a".toList, "b".toList]
        (fun _ _ => AttemptEnv.mk (TryOutcome.status 404 []) 0 0)
        (FetchSettings.mk 2 1 1 1) (OutPath.mk "p".toList "q".toList)
        0).1.data = none ∧
      (fetch_most_recent_forecast ["a".toList, "b".toList]
        (fun _ _ => AttemptEnv.mk (TryOutcome.status 404 []) 0 0)
        (FetchSettings.mk 2 1 1 1) (OutPath.mk "p".toList "q".toList)
        0).1.attempts.length = ["a".toList, "b".toList].length)) :=
  ⟨⟨by omega, rfl, by omega, by omega, by omega, fun j _ => rfl, by decide,
    fun i => ⟨[], rfl⟩⟩,
   c5_retry_policy "u".toList "v".toList
     (fun _ => AttemptEnv.mk (TryOutcome.status 404 []) 0 0)
     (fun _ => AttemptEnv.mk (TryOutcome.status 503 []) 0 0)
     2 1 1 404 []
     (fun _ _ => AttemptEnv.mk (TryOutcome.status 404 []) 0 0)
     (FetchSettings.mk 2 1 1 1) (OutPath.mk "p".toList "q".toList) 0
     ["a".toList, "b".toList]
     (by omega) rfl (by omega) (by omega) (by omega) (fun j _ => rfl)
     (by decide) (fun i => ⟨[], rfl⟩)⟩

/-! ## Claim C7: file-write frame -/

/-- Filesystem effects (directory creation, file write). -/
def isFsEffect : Effect → Bool
  | .mkdirParents _ => true
  | .writeBytes _ _ => true
  | _ => false

/-- The per-URL retry loop touches no filesystem state. -/
theorem backoff_no_fs (url : List Char) (env : Nat → AttemptEnv) (maxA : Nat)
    (a b : ℚ) :
    ∀ fuel i,
      (backoffAux url env maxA a b i fuel).2.2.filter isFsEffect = [] := by
  intro fuel
  induction fuel with
  | zero => intro i; simp [backoffAux]
  | succ fuel ih =>
    intro i
    cases hf : fetch_with_retry url (env i) with
    | mk resp att =>
      cases resp with
      | some p => simp [backoffAux, hf, isFsEffect]
      | none =>
        by_cases hb : breakNow att
        · simp [backoffAux, hf, hb, isFsEffect]
        · by_cases hi : i + 1 < maxA
          · simp [backoffAux, hf, hb, hi, isFsEffect, ih]
          · simp [backoffAux, hf, hb, hi, isFsEffect]

/-- Frame of the URL loop: beyond what the incoming trace already holds, the
filesystem effects are exactly one `mkdir` of the destination's parent and
one write of the returned payload to the destination - when and only when the
result carries a payload. -/
theorem mrf_fs_frame (env : Nat → Nat → AttemptEnv) (cfg : FetchSettings)
    (out : OutPath) (elapsed : ℚ) :
    ∀ (urls : List (List Char)) (idx : Nat) (first : Bool)
      (acc : List FetchAttempt) (tr : List Effect),
      (mrfAux env cfg out elapsed urls idx first acc tr).2.filter isFsEffect =
        tr.filter isFsEffect ++
          (match (mrfAux env cfg out elapsed urls idx first acc tr).1.data with
           | some d =>
             [Effect.mkdirParents out.parent, Effect.writeBytes out.name d]
           | none => []) := by
  intro urls
  induction urls with
  | nil => intro idx first acc tr; simp [mrfAux]
  | cons url rest ih =>
    intro idx first acc tr
    have hnofs : (fetch_with_exponential_backoff url (env idx)
        cfg.max_attempts cfg.initial_delay
        cfg.max_delay).2.2.filter isFsEffect = [] :=
      backoff_no_fs url (env idx) cfg.max_attempts cfg.initial_delay
        cfg.max_delay cfg.max_attempts 0
    cases hfw : fetch_with_exponential_backoff url (env idx) cfg.max_attempts
        cfg.initial_delay cfg.max_delay with
    | mk resp patts =>
      rw [hfw] at hnofs
      simp only at hnofs
      cases resp with
      | some d =>
        simp only [mrfAux, hfw]
        cases first <;>
          simp [List.filter_append, hnofs, isFsEffect]
      | none =>
        simp only [mrfAux, hfw]
        rw [ih (idx + 1) false (acc ++ patts.1)
          ((if first then tr else tr ++ [Effect.sleep cfg.rate_limit]) ++
            patts.2)]
        cases first <;> simp [List.filter_append, hnofs, isFsEffect]

/-- C7: `fetch_most_recent_forecast` performs exactly one parent-directory
creation and one write of the full returned payload to the destination path
when it succeeds (its result carries a payload exactly then, see C6), and no
filesystem effect at all when it fails. -/
theorem c7_file_write_frame (query_urls : List (List Char))
    (env : Nat → Nat → AttemptEnv) (cfg : FetchSettings) (out : OutPath)
    (elapsed : ℚ) :
    (fetch_most_recent_forecast query_urls env cfg out
        elapsed).2.filter isFsEffect =
      (match (fetch_most_recent_forecast query_urls env cfg out
          elapsed).1.data with
       | some d => [Effect.mkdirParents out.parent, Effect.writeBytes out.name d]
       | none => []) := by
  have h := mrf_fs_frame env cfg out elapsed query_urls 0 true [] []
  simpa using h

/-! ## Claim C8: backoff delay bounds -/

/-- The jittered delay lies within plus or minus 20 percent of the capped
exponential base delay. -/
theorem calc_backoff_bounds (i : Nat) (initial maxd r : ℚ)
    (h1 : 0 ≤ initial) (h2 : 0 ≤ maxd) (h3 : 0 ≤ r) (h4 : r ≤ 1) :
    0.8 * min (initial * 2 ^ i) maxd ≤
      calculate_exponential_backoff i initial maxd r ∧
    calculate_exponential_backoff i initial maxd r ≤
      1.2 * min (initial * 2 ^ i) maxd := by
  simp only [calculate_exponential_backoff]
  set base := min (initial * 2 ^ i) maxd with hbase
  have hbnn : 0 ≤ base := le_min (by positivity) h2
  constructor <;>
    nlinarith [mul_nonneg hbnn h3, mul_nonneg hbnn (sub_nonneg.mpr h4)]

/-- Every sleep in the per-URL trace is a backoff delay computed at some
attempt index that still has a following attempt. -/
theorem backoff_sleep_mem (url : List Char) (env : Nat → AttemptEnv)
    (maxA : Nat) (a b : ℚ) :
    ∀ fuel i d, Effect.sleep d ∈ (backoffAux url env maxA a b i fuel).2.2 →
      ∃ k, k + 1 < maxA ∧
        d = calculate_exponential_backoff k a b (env k).rand := by
  intro fuel
  induction fuel with
  | zero => intro i d h; simp [backoffAux] at h
  | succ fuel ih =>
    intro i d h
    cases hf : fetch_with_retry url (env i) with
    | mk resp att =>
      cases resp with
      | some p => simp [backoffAux, hf] at h
      | none =>
        by_cases hb : breakNow att
        · simp [backoffAux, hf, hb] at h
        · by_cases hi : i + 1 < maxA
          · simp only [backoffAux, hf, hb, Bool.false_eq_true, if_false,
              if_pos hi, List.mem_cons] at h
            rcases h with h | h | h
            · exact absurd h (by simp)
            · refine ⟨i, hi, ?_⟩
              injection h
            · exact ih (i + 1) d h
          · simp [backoffAux, hf, hb, hi] at h

/-- A non-trivial per-URL loop emits at least one effect. -/
theorem backoff_trace_ne_nil (url : List Char) (env : Nat → AttemptEnv)
    (maxA : Nat) (a b : ℚ) :
    ∀ fuel i, 1 ≤ fuel → (backoffAux url env maxA a b i fuel).2.2 ≠ [] := by
  intro fuel i h
  obtain ⟨f, rfl⟩ : ∃ f, fuel = f + 1 := ⟨fuel - 1, by omega⟩
  cases hf : fetch_with_retry url (env i) with
  | mk resp att =>
    cases resp with
    | some p => simp [backoffAux, hf]
    | none =>
      by_cases hb : breakNow att
      · simp [backoffAux, hf, hb]
      · by_cases hi : i + 1 < maxA <;> simp [backoffAux, hf, hb, hi]

/-- No sleep after the final attempt: the per-URL effect trace never ends
with a sleep. -/
theorem backoff_last_not_sleep (url : List Char) (env : Nat → AttemptEnv)
    (maxA : Nat) (a b : ℚ) :
    ∀ fuel i, i + fuel = maxA → ∀ d,
      (backoffAux url env maxA a b i fuel).2.2.getLast? ≠
        some (Effect.sleep d) := by
  intro fuel
  induction fuel with
  | zero => intro i _ d; simp [backoffAux]
  | succ fuel ih =>
    intro i hinv d
    cases hf : fetch_with_retry url (env i) with
    | mk resp att =>
      cases resp with
      | some p => simp [backoffAux, hf]
      | none =>
        by_cases hb : breakNow att
        · simp [backoffAux, hf, hb]
        · by_cases hi : i + 1 < maxA
          · have hfuel : 1 ≤ fuel := by omega
            have hne := backoff_trace_ne_nil url env maxA a b fuel (i + 1) hfuel
            obtain ⟨e0, rest0, hrest⟩ : ∃ e0 rest0,
                (backoffAux url env maxA a b (i + 1) fuel).2.2 =
                  e0 :: rest0 := by
              cases hx : (backoffAux url env maxA a b (i + 1) fuel).2.2 with
              | nil => exact absurd hx hne
              | cons e0 r0 => exact ⟨e0, r0, rfl⟩
            simp only [backoffAux, hf, hb, Bool.false_eq_true, if_false,
              if_pos hi]
            rw [hrest, List.getLast?_cons_cons, List.getLast?_cons_cons]
            have h2 := ih (i + 1) (by omega) d
            rw [hrest] at h2
            exact h2
          · simp [backoffAux, hf, hb, hi]

/-- C8: the backoff delay equals `min(initial * 2^i, max_delay)` plus a
jitter within plus or minus 20 percent of it, so the slept delay lies in
`[0.8 * base, 1.2 * base]`; every sleep of the per-URL loop is such a delay
at an index with a following attempt; and no delay is slept after the final
attempt (the trace never ends in a sleep). -/
theorem c8_backoff_delay (i : Nat) (initial maxd r : ℚ) (url : List Char)
    (env : Nat → AttemptEnv) (maxA : Nat)
    (h1 : 0 ≤ initial) (h2 : 0 ≤ maxd) (h3 : 0 ≤ r) (h4 : r ≤ 1)
    (h5 : ∀ k, 0 ≤ (env k).rand ∧ (env k).rand ≤ 1) :
    (0.8 * min (initial * 2 ^ i) maxd ≤
        calculate_exponential_backoff i initial maxd r ∧
      calculate_exponential_backoff i initial maxd r ≤
        1.2 * min (initial * 2 ^ i) maxd) ∧
    (∀ d, Effect.sleep d ∈
        (fetch_with_exponential_backoff url env maxA initial maxd).2.2 →
      ∃ k, k + 1 < maxA ∧
        d = calculate_exponential_backoff k initial maxd (env k).rand ∧
        0.8 * min (initial * 2 ^ k) maxd ≤ d ∧
        d ≤ 1.2 * min (initial * 2 ^ k) maxd) ∧
    (∀ d, (fetch_with_exponential_backoff url env maxA initial
        maxd).2.2.getLast? ≠ some (Effect.sleep d)) := by
  refine ⟨calc_backoff_bounds i initial maxd r h1 h2 h3 h4, ?_, ?_⟩
  · intro d hd
    obtain ⟨k, hk, hdk⟩ :=
      backoff_sleep_mem url env maxA initial maxd maxA 0 d hd
    obtain ⟨hlo, hhi⟩ := calc_backoff_bounds k initial maxd ((env k).rand)
      h1 h2 (h5 k).1 (h5 k).2
    exact ⟨k, hk, hdk, hdk ▸ hlo, hdk ▸ hhi⟩
  · intro d
    exact backoff_last_not_sleep url env maxA initial maxd maxA 0
      (by omega) d

/-- Witness for C8 at concrete parameters (initial delay 1, cap 10, draw 1/2,
a constant retryable environment, two attempts). -/
theorem c8_backoff_delay_witness :
    ((0 : ℚ) ≤ 1 ∧ (0 : ℚ) ≤ 10 ∧ (0 : ℚ) ≤ 1 / 2 ∧ (1 / 2 : ℚ) ≤ 1 ∧
     (∀ k : Nat, 0 ≤ ((fun _ : Nat =>
         AttemptEnv.mk (TryOutcome.status 503 []) 0 0) k).rand ∧
       ((fun _ : Nat =>
         AttemptEnv.mk (TryOutcome.status 503 []) 0 0) k).rand ≤ 1)) ∧
    ((0.8 * min ((1 : ℚ) * 2 ^ (0 : Nat)) 10 ≤
        calculate_exponential_backoff 0 1 10 (1 / 2) ∧
      calculate_exponential_backoff 0 1 10 (1 / 2) ≤
        1.2 * min ((1 : ℚ) * 2 ^ (0 : Nat)) 10) ∧
     (∀ d, Effect.sleep d ∈
        (fetch_with_exponential_backoff "u".toList
          (fun _ => AttemptEnv.mk (TryOutcome.status 503 []) 0 0) 2 1
          10).2.2 →
       ∃ k, k + 1 < 2 ∧
         d = calculate_exponential_backoff k 1 10
           ((fun _ : Nat =>
             AttemptEnv.mk (TryOutcome.status 503 []) 0 0) k).rand ∧
         0.8 * min ((1 : ℚ) * 2 ^ k) 10 ≤ d ∧
         d ≤ 1.2 * min ((1 : ℚ) * 2 ^ k) 10) ∧
     (∀ d, (fetch_with_exponential_backoff "u".toList
          (fun _ => AttemptEnv.mk (TryOutcome.status 503 []) 0 0) 2 1
          10).2.2.getLast? ≠ some (Effect.sleep d))) :=
  ⟨⟨by norm_num, by norm_num, by norm_num, by norm_num,
    fun k => ⟨by norm_num, by norm_num⟩⟩,
   c8_backoff_delay 0 1 10 (1 / 2) "u".toList
     (fun _ => AttemptEnv.mk (TryOutcome.status 503 []) 0 0) 2
     (by norm_num) (by norm_num) (by norm_num) (by norm_num)
     (fun k => ⟨by norm_num, by norm_num⟩)⟩
